import Mathlib

/-!
Verification of the marketing-funnel dashboard (`src/streamlit_app.py`).

The script ingests three CSV tables (iOS funnel events, Android funnel events,
media spend), detects a date column per table, outer-joins them on the
normalized date, zero-fills missing cells, derives per-platform and total
funnel metrics by case-insensitive substring column matching, computes
guarded conversion ratios and cost-per-install, and extracts summary totals
and best-day insights.

The embedding below models a pandas DataFrame as an ordered list of column
names together with date-keyed rows of optional rational cells (`none`
plays the role of NaN).  Machine floats are modelled by `ℚ`; the script's
arithmetic (sums, ratios with divide-by-zero guards) is exact in this model.
-/

namespace Funnel

/-- Substring test on character lists: does `pat` occur inside `s`?
Models Python's `in` operator on strings. -/
def hasSubAux (pat : List Char) : List Char → Bool
  | [] => pat.isEmpty
  | c :: rest => pat.isPrefixOf (c :: rest) || hasSubAux pat rest

/-- Substring test on strings: models Python `pat in s`. -/
def hasSub (pat s : String) : Bool := hasSubAux pat.data s.data

/-- ASCII lower-casing of one character (Python `str.lower` on the ASCII
column names this dashboard deals in). -/
def lowChar (c : Char) : Char :=
  if 65 ≤ c.toNat ∧ c.toNat ≤ 90 then Char.ofNat (c.toNat + 32) else c

/-- ASCII lower-casing of a string: models Python `c.lower()`. -/
def lowStr (s : String) : String := ⟨s.data.map lowChar⟩

/-- Models Python `s.startswith(tag)`. -/
def startsB (tag s : String) : Bool := tag.data.isPrefixOf s.data

/-- Structural column matcher of lines 104-111 of `streamlit_app.py`:
`c.lower().startswith(tag) and mid in c.lower()`. -/
def matchesB (tag mid c : String) : Bool :=
  startsB tag (lowStr c) && hasSub mid (lowStr c)

/-- Spend-column keyword test of line 74: `any(k in c.lower() for k in
('spend','spends','amount','cost','media'))`. -/
def spendKeyB (c : String) : Bool :=
  ["spend", "spends", "amount", "cost", "media"].any (fun k => hasSub k (lowStr c))

/-- A merged/derived data table: ordered column names plus date-keyed rows.
A cell `none` models a pandas NaN. -/
structure Table where
  cols : List String
  rows : List (ℕ × List (Option ℚ))
deriving DecidableEq

/-- The date keys of a table, in row order. -/
def keys (t : Table) : List ℕ := t.rows.map Prod.fst

/-- Well-formedness: every row has exactly one cell per column. -/
def WF (t : Table) : Prop := ∀ p ∈ t.rows, p.2.length = t.cols.length

/-- Value of the (first) column named `n` in row `r`, with NaN and a missing
column both reading as `0` (pandas arithmetic on the zero-filled frame). -/
def colVal (cols : List String) (r : List (Option ℚ)) (n : String) : ℚ :=
  match (cols.zip r).find? (fun x => decide (x.1 = n)) with
  | some x => x.2.getD 0
  | none => 0

/-- Raw cell of the (first) column named `n` in row `r` (`none` for NaN or a
missing column). -/
def colCell (cols : List String) (r : List (Option ℚ)) (n : String) : Option ℚ :=
  match (cols.zip r).find? (fun x => decide (x.1 = n)) with
  | some x => x.2
  | none => none

/-- Row-wise structural sum of lines 104-111: sum of the cells of every column
whose name matches `matchesB tag mid`; no matching column sums to `0`, which
is also what line 104's `else pd.Series(0, ...)` branch produces. -/
def structRowSum (cols : List String) (r : List (Option ℚ)) (tag mid : String) : ℚ :=
  (((cols.zip r).filter (fun x => matchesB tag mid x.1)).map (fun x => x.2.getD 0)).sum

/-- Overwrite the cell of the first column named `n` with `v` (positional,
mirroring in-place DataFrame column assignment). -/
def setCellsAux : List String → List (Option ℚ) → String → Option ℚ → List (Option ℚ)
  | [], r, _, _ => r
  | _, [], _, _ => []
  | c :: cs, x :: xs, n, v => if c = n then v :: xs else x :: setCellsAux cs xs n v

/-- One `combined_df[n] = <series>` assignment where the series is computed
row-locally from the current frame: overwrite the column if it exists,
otherwise append it on the right (pandas column-assignment semantics).  All
assignments in lines 102-137 are row-local, so this captures them exactly. -/
def step (t : Table) (n : String) (g : List String → List (Option ℚ) → Option ℚ) : Table :=
  if n ∈ t.cols then
    ⟨t.cols, t.rows.map (fun p => (p.1, setCellsAux t.cols p.2 n (g t.cols p.2)))⟩
  else
    ⟨t.cols ++ [n], t.rows.map (fun p => (p.1, p.2 ++ [g t.cols p.2]))⟩

/-- Guarded percentage of lines 124-132: `np.where(0 < d, n / d * 100, 0)`. -/
def pct (n d : ℚ) : ℚ := if 0 < d then n / d * 100 else 0

/-- Line 102: `combined_df['ios_installs'] = sum_cols_by_regex(combined_df, 'ios') * 0`,
an all-zero placeholder column (any series multiplied by 0 is 0 row-wise). -/
def assignIosZero (t : Table) : Table := step t "ios_installs" (fun _ _ => some 0)

/-- Line 104: structural sum for (ios, install). -/
def assignIosInstalls (t : Table) : Table :=
  step t "ios_installs" (fun cs r => some (structRowSum cs r "ios" "install"))

/-- Line 105: structural sum for (android, install). -/
def assignAndroidInstalls (t : Table) : Table :=
  step t "android_installs" (fun cs r => some (structRowSum cs r "android" "install"))

/-- Line 107: structural sum for (ios, kyc). -/
def assignIosKyc (t : Table) : Table :=
  step t "ios_kyc" (fun cs r => some (structRowSum cs r "ios" "kyc"))

/-- Line 108: structural sum for (android, kyc). -/
def assignAndroidKyc (t : Table) : Table :=
  step t "android_kyc" (fun cs r => some (structRowSum cs r "android" "kyc"))

/-- Line 110: structural sum for (ios, otp). -/
def assignIosOtp (t : Table) : Table :=
  step t "ios_otp" (fun cs r => some (structRowSum cs r "ios" "otp"))

/-- Line 111: structural sum for (android, otp). -/
def assignAndroidOtp (t : Table) : Table :=
  step t "android_otp" (fun cs r => some (structRowSum cs r "android" "otp"))

/-- Line 114: `total_installs = ios_installs + android_installs`. -/
def assignTotalInstalls (t : Table) : Table :=
  step t "total_installs"
    (fun cs r => some (colVal cs r "ios_installs" + colVal cs r "android_installs"))

/-- Line 115: `total_kyc = ios_kyc + android_kyc`. -/
def assignTotalKyc (t : Table) : Table :=
  step t "total_kyc" (fun cs r => some (colVal cs r "ios_kyc" + colVal cs r "android_kyc"))

/-- Line 116: `total_otp = ios_otp + android_otp`. -/
def assignTotalOtp (t : Table) : Table :=
  step t "total_otp" (fun cs r => some (colVal cs r "ios_otp" + colVal cs r "android_otp"))

/-- Lines 119-120: create an all-zero `Spends` column when none exists. -/
def ensureSpends (t : Table) : Table :=
  if "Spends" ∈ t.cols then t else step t "Spends" (fun _ _ => some 0)

/-- Line 121: `pd.to_numeric(combined_df['Spends'], errors='coerce').fillna(0)` —
on rational cells the numeric coercion is the identity and `fillna(0)` turns a
NaN cell into 0, which is exactly `colVal`. -/
def coerceSpends (t : Table) : Table :=
  step t "Spends" (fun cs r => some (colVal cs r "Spends"))

/-- Lines 124-126: guarded `install_to_kyc` percentage. -/
def assignInstallToKyc (t : Table) : Table :=
  step t "install_to_kyc"
    (fun cs r => some (pct (colVal cs r "total_kyc") (colVal cs r "total_installs")))

/-- Lines 127-129: guarded `install_to_otp` percentage. -/
def assignInstallToOtp (t : Table) : Table :=
  step t "install_to_otp"
    (fun cs r => some (pct (colVal cs r "total_otp") (colVal cs r "total_installs")))

/-- Lines 130-132: guarded `kyc_to_otp` percentage. -/
def assignKycToOtp (t : Table) : Table :=
  step t "kyc_to_otp"
    (fun cs r => some (pct (colVal cs r "total_otp") (colVal cs r "total_kyc")))

/-- Lines 135-137: CPI, NaN (`none`) on rows without positive installs. -/
def assignCpi (t : Table) : Table :=
  step t "cpi" (fun cs r =>
    if 0 < colVal cs r "total_installs" then
      some (colVal cs r "Spends" / colVal cs r "total_installs")
    else none)

/-- Lines 102-111: the placeholder and the six structural per-platform sums,
in source order. -/
def deriveStructStage (t : Table) : Table :=
  assignAndroidOtp (assignIosOtp (assignAndroidKyc (assignIosKyc
    (assignAndroidInstalls (assignIosInstalls (assignIosZero t))))))

/-- Lines 114-116: the three totals. -/
def deriveTotalsStage (t : Table) : Table :=
  assignTotalOtp (assignTotalKyc (assignTotalInstalls (deriveStructStage t)))

/-- Lines 119-121: ensure and coerce the `Spends` column. -/
def deriveSpendStage (t : Table) : Table :=
  coerceSpends (ensureSpends (deriveTotalsStage t))

/-- The metric-derivation block, lines 102-137 of `streamlit_app.py`: the
column assignments in source order. -/
def derive (t : Table) : Table :=
  assignCpi (assignKycToOtp (assignInstallToOtp (assignInstallToKyc (deriveSpendStage t))))

/-- Cells contributed by table `t` to the merged row for date `d`: the cells
of its row for `d`, or one NaN per column when `t` has no row for `d`. -/
def lookupCells (t : Table) (d : ℕ) : List (Option ℚ) :=
  match t.rows.find? (fun q => decide (q.1 = d)) with
  | some q => q.2
  | none => List.replicate t.cols.length none

/-- `pd.merge(t1, t2, on='Date', how='outer')` (lines 87-88) for tables whose
keys are duplicate-free: every `t1` row extended by `t2`'s cells for its date
(NaN-padded when absent), followed by the `t2` rows whose dates `t1` lacks,
NaN-padded on the left. -/
def merge2 (t1 t2 : Table) : Table :=
  ⟨t1.cols ++ t2.cols,
    t1.rows.map (fun p => (p.1, p.2 ++ lookupCells t2 p.1)) ++
      (t2.rows.filter (fun q => decide (q.1 ∉ keys t1))).map
        (fun q => (q.1, List.replicate t1.cols.length (none : Option ℚ) ++ q.2))⟩

/-- `combined_df.sort_values('Date')` (line 91): sort rows ascending by date
key.  The keys are duplicate-free in every use, so any correct sort yields
the same list. -/
def sortRows (t : Table) : Table :=
  ⟨t.cols, List.insertionSort (fun p q => p.1 ≤ q.1) t.rows⟩

/-- `combined_df.fillna(0)` (line 92): every NaN cell becomes `0`. -/
def fillTable (t : Table) : Table :=
  ⟨t.cols, t.rows.map (fun p => (p.1, p.2.map (fun c => some (c.getD 0))))⟩

/-- Lines 87-92: outer-merge the three tables on the date key, sort ascending
by date, and zero-fill missing cells. -/
def combine3 (ios android spend : Table) : Table :=
  fillTable (sortRows (merge2 (merge2 ios android) spend))

/-- A raw CSV cell after a parse attempt: a number, a date value, or content
that parses as neither (a free-form string, an empty cell, ...). -/
inductive RCell where
  | num (q : ℚ)
  | date (d : ℕ)
  | bad
deriving DecidableEq

/-- A raw uploaded table: trimmed column names and untyped rows
(`safe_read_csv`, lines 28-32). -/
structure RawTable where
  cols : List String
  rows : List (List RCell)
deriving DecidableEq

/-- Line 36: the date column is the first column whose lower-cased name
contains `"date"`. -/
def findDateIdx (cols : List String) : Option ℕ :=
  cols.findIdx? (fun c => hasSub "date" (lowStr c))

/-- `pd.to_datetime(..., errors='coerce')` (line 40): a date cell parses to
its day value, anything else coerces to NaT (`none`). -/
def parseDate : RCell → Option ℕ
  | .date d => some d
  | _ => none

/-- Numeric reading of a non-date cell.  A cell that is not a number is
modelled as missing: for the `Spends` column this is exactly
`pd.to_numeric(..., errors='coerce')` (line 121) composed with `fillna(0)`. -/
def cellVal : RCell → Option ℚ
  | .num q => some q
  | _ => none

/-- Cell of raw row `r` at position `i` (out of range reads as unparseable). -/
def rcellAt (r : List RCell) (i : ℕ) : RCell := (r.get? i).getD .bad

/-- Lines 40, 60-67, 84: parse the date column at index `i` leniently, drop
the rows whose date fails to parse (`dropna(subset=['Date'])`), key the
surviving rows by their normalized day value, and keep the remaining columns
in order. -/
def toKeyed (t : RawTable) (i : ℕ) : Table :=
  ⟨t.cols.eraseIdx i,
    t.rows.filterMap (fun r =>
      (parseDate (rcellAt r i)).map (fun d => (d, (r.eraseIdx i).map cellVal)))⟩

/-- Lines 70-71: `add_prefix` on the platform table after the date column has
been split off — every remaining column name gets the platform tag. -/
def addTag (tag : String) (t : Table) : Table :=
  ⟨t.cols.map (fun c => tag ++ c), t.rows⟩

/-- Lines 74-80: adopt the first column whose name matches a spend keyword,
renaming it to `Spends`; if none matches, append an all-zero `Spends`
column. -/
def spendAdopt (t : Table) : Table :=
  match t.cols.findIdx? spendKeyB with
  | some i => ⟨t.cols.set i "Spends", t.rows⟩
  | none => ⟨t.cols ++ ["Spends"], t.rows.map (fun p => (p.1, p.2 ++ [some 0]))⟩

/-- Replace every unparseable cell of a raw table by the literal number 0. -/
def badToZero (t : RawTable) : RawTable :=
  ⟨t.cols, t.rows.map (fun r => r.map (fun c => if c = RCell.bad then RCell.num 0 else c))⟩

/-- The reconciliation pipeline, lines 43-137: detect a date column in each
of the three uploads (aborting with the line-56 message when one is
missing — `st.error` followed by `st.stop`, so nothing partial is produced),
normalize and key each table by date, tag the platform columns, adopt the
spend column, outer-merge, sort, zero-fill, and derive the metrics. -/
def pipeline (ios android spend : RawTable) : Except String Table :=
  match findDateIdx ios.cols, findDateIdx android.cols, findDateIdx spend.cols with
  | some i, some j, some k =>
    .ok (derive (combine3 (addTag "ios_" (toKeyed ios i))
      (addTag "android_" (toKeyed android j)) (spendAdopt (toKeyed spend k))))
  | _, _, _ =>
    .error "Couldn't find a Date column in one of the files. Make sure each CSV has a Date column."

/-- The summary record rendered by lines 143-162. -/
structure Summary where
  total_spend : ℚ
  total_installs : ℚ
  total_kyc : ℚ
  total_otp : ℚ
  avg_cpi : ℚ
  install_to_kyc_pct : ℚ
  install_to_otp_pct : ℚ
deriving DecidableEq

/-- The named column of a table as a list of rationals (NaN and a missing
column read as 0). -/
def getColQ (t : Table) (n : String) : List ℚ :=
  t.rows.map (fun p => colVal t.cols p.2 n)

/-- The named column of a table as raw optional cells. -/
def getColO (t : Table) (n : String) : List (Option ℚ) :=
  t.rows.map (fun p => colCell t.cols p.2 n)

/-- Lines 143-162: whole-series sums, the guarded average CPI, and the
overall conversion percentages computed from the summed totals. -/
def summaryOf (t : Table) : Summary :=
  let ts := (getColQ t "Spends").sum
  let ti := (getColQ t "total_installs").sum
  let tk := (getColQ t "total_kyc").sum
  let tp := (getColQ t "total_otp").sum
  ⟨ts, ti, tk, tp,
    if 0 < ti then ts / ti else 0,
    if 0 < ti then tk / ti * 100 else 0,
    if 0 < ti then tp / ti * 100 else 0⟩

/-- Arithmetic mean of a list of rationals (`Series.mean`), `0` on empty. -/
def meanOf (l : List ℚ) : ℚ := l.sum / l.length

/-- `series.dropna().idxmin()` (line 263): position and value of the first
occurrence of the minimum among the defined entries, `none` when no entry is
defined.  A later entry replaces the current best only when strictly
smaller, so ties keep the earliest position. -/
def idxmin? : List (Option ℚ) → Option (ℕ × ℚ)
  | [] => none
  | none :: rest => (idxmin? rest).map (fun x => (x.1 + 1, x.2))
  | some v :: rest =>
    match idxmin? rest with
    | none => some (0, v)
    | some (j, w) => if w < v then some (j + 1, w) else some (0, v)

/-- `series.idxmax()` (line 275): position and value of the first occurrence
of the maximum, `none` on the empty series. -/
def idxmax? : List ℚ → Option (ℕ × ℚ)
  | [] => none
  | v :: rest =>
    match idxmax? rest with
    | none => some (0, v)
    | some (j, w) => if v < w then some (j + 1, w) else some (0, v)

/-- Lines 261-268: index of the best-CPI row — minimum defined CPI, first
occurrence on ties, `none` (rendered `N/A`) when no CPI is defined. -/
def bestCpiIdx (t : Table) : Option ℕ :=
  (idxmin? (getColO t "cpi")).map Prod.fst

/-- Lines 273-280: index of the best-conversion row — maximum
`install_to_kyc`, first occurrence on ties, `none` on an empty table. -/
def bestConvIdx (t : Table) : Option ℕ :=
  (idxmax? (getColQ t "install_to_kyc")).map Prod.fst

/-- Date key of row `i` of a table (0 out of range). -/
def nthKey (t : Table) (i : ℕ) : ℕ := ((keys t).get? i).getD 0

/-- The structural (tag, mid) sums of a table, one value per row. -/
def structColSum (t : Table) (tag mid : String) : List ℚ :=
  t.rows.map (fun p => structRowSum t.cols p.2 tag mid)

instance : IsTotal (ℕ × List (Option ℚ)) (fun p q => p.1 ≤ q.1) :=
  ⟨fun a b => Nat.le_total a.1 b.1⟩

instance : IsTrans (ℕ × List (Option ℚ)) (fun p q => p.1 ≤ q.1) :=
  ⟨fun _ _ _ hab hbc => Nat.le_trans hab hbc⟩

/-- Two cells that read the same number after `fillna(0)`. -/
def cellRel (a b : Option ℚ) : Prop := a.getD 0 = b.getD 0

/-- Two rows with the same date whose cells are `cellRel`-related. -/
def rowRel (p q : ℕ × List (Option ℚ)) : Prop :=
  p.1 = q.1 ∧ List.Forall₂ cellRel p.2 q.2

/-- Two tables indistinguishable after the zero-fill. -/
def tableRel (t t' : Table) : Prop :=
  t.cols = t'.cols ∧ List.Forall₂ rowRel t.rows t'.rows

/-! ### Generic lemmas about cell access and column assignment -/

theorem colVal_eq_colCell (cols : List String) (r : List (Option ℚ)) (n : String) :
    colVal cols r n = (colCell cols r n).getD 0 := by
  unfold colVal colCell
  cases (cols.zip r).find? (fun x => decide (x.1 = n)) <;> rfl

theorem getColQ_eq_getColO (t : Table) (n : String) :
    getColQ t n = (getColO t n).map (fun c => c.getD 0) := by
  unfold getColQ getColO
  rw [List.map_map]
  exact List.map_congr_left fun p _ => colVal_eq_colCell _ _ _

@[simp] theorem colCell_nil_cols (r : List (Option ℚ)) (n : String) :
    colCell [] r n = none := by
  simp [colCell]

@[simp] theorem colCell_nil_row (cols : List String) (n : String) :
    colCell cols [] n = none := by
  simp [colCell]

theorem colCell_cons (c : String) (cs : List String) (x : Option ℚ)
    (xs : List (Option ℚ)) (n : String) :
    colCell (c :: cs) (x :: xs) n = if c = n then x else colCell cs xs n := by
  by_cases h : c = n <;> simp [colCell, List.find?_cons, h]

theorem length_setCellsAux (cols : List String) (r : List (Option ℚ)) (n : String)
    (v : Option ℚ) : (setCellsAux cols r n v).length = r.length := by
  induction cols generalizing r with
  | nil => simp [setCellsAux]
  | cons c cs ih =>
    cases r with
    | nil => simp [setCellsAux]
    | cons x xs =>
      by_cases h : c = n <;> simp [setCellsAux, h, ih]

theorem colCell_setCellsAux_self (cols : List String) (r : List (Option ℚ))
    (n : String) (v : Option ℚ) (hn : n ∈ cols) (hl : r.length = cols.length) :
    colCell cols (setCellsAux cols r n v) n = v := by
  induction cols generalizing r with
  | nil => cases hn
  | cons c cs ih =>
    cases r with
    | nil => simp at hl
    | cons x xs =>
      by_cases h : c = n
      · simp [setCellsAux, h, colCell_cons]
      · have hn' : n ∈ cs := by
          cases List.mem_cons.mp hn with
          | inl he => exact absurd he.symm h
          | inr hm => exact hm
        simp only [setCellsAux, if_neg h, colCell_cons, if_neg h]
        exact ih xs hn' (by simpa using hl)

theorem colCell_setCellsAux_ne (cols : List String) (r : List (Option ℚ))
    (n m : String) (v : Option ℚ) (hnm : m ≠ n) :
    colCell cols (setCellsAux cols r n v) m = colCell cols r m := by
  induction cols generalizing r with
  | nil => simp [setCellsAux]
  | cons c cs ih =>
    cases r with
    | nil => simp [setCellsAux]
    | cons x xs =>
      by_cases h : c = n
      · have hcm : ¬ c = m := fun hc => hnm (hc.symm.trans h)
        rw [setCellsAux, if_pos h, colCell_cons, if_neg hcm, colCell_cons, if_neg hcm]
      · rw [setCellsAux, if_neg h, colCell_cons, colCell_cons]
        by_cases hcm : c = m
        · rw [if_pos hcm, if_pos hcm]
        · rw [if_neg hcm, if_neg hcm, ih]

theorem colCell_append_self (cols : List String) (r : List (Option ℚ))
    (n : String) (v : Option ℚ) (hn : n ∉ cols) (hl : r.length = cols.length) :
    colCell (cols ++ [n]) (r ++ [v]) n = v := by
  induction cols generalizing r with
  | nil =>
    have : r = [] := List.length_eq_zero.mp hl
    subst this
    rw [List.nil_append, List.nil_append, colCell_cons, if_pos rfl]
  | cons c cs ih =>
    cases r with
    | nil => simp at hl
    | cons x xs =>
      have hcn : ¬ c = n := fun hc => hn (hc ▸ List.mem_cons_self c cs)
      rw [List.cons_append, List.cons_append, colCell_cons, if_neg hcn]
      exact ih xs (fun hm => hn (List.mem_cons_of_mem _ hm)) (by simpa using hl)

theorem colCell_append_ne (cols : List String) (r : List (Option ℚ))
    (n m : String) (v : Option ℚ) (hnm : m ≠ n) (hl : r.length = cols.length) :
    colCell (cols ++ [n]) (r ++ [v]) m = colCell cols r m := by
  induction cols generalizing r with
  | nil =>
    have : r = [] := List.length_eq_zero.mp hl
    subst this
    rw [List.nil_append, List.nil_append, colCell_cons, if_neg (fun h => hnm h.symm)]
  | cons c cs ih =>
    cases r with
    | nil => simp at hl
    | cons x xs =>
      rw [List.cons_append, List.cons_append, colCell_cons, colCell_cons]
      by_cases hcm : c = m
      · rw [if_pos hcm, if_pos hcm]
      · rw [if_neg hcm, if_neg hcm, ih xs (by simpa using hl)]

theorem structRowSum_cons (c : String) (cs : List String) (x : Option ℚ)
    (xs : List (Option ℚ)) (tag mid : String) :
    structRowSum (c :: cs) (x :: xs) tag mid =
      (if matchesB tag mid c then x.getD 0 else 0) + structRowSum cs xs tag mid := by
  by_cases h : matchesB tag mid c <;>
    simp [structRowSum, List.filter_cons, h]

theorem structRowSum_append (cols cols2 : List String) (r r2 : List (Option ℚ))
    (tag mid : String) (hl : r.length = cols.length) :
    structRowSum (cols ++ cols2) (r ++ r2) tag mid =
      structRowSum cols r tag mid + structRowSum cols2 r2 tag mid := by
  unfold structRowSum
  rw [List.zip_append hl.symm, List.filter_append, List.map_append, List.sum_append]

theorem structRowSum_setCellsAux_unmatched (cols : List String) (r : List (Option ℚ))
    (n : String) (v : Option ℚ) (tag mid : String) (hn : matchesB tag mid n = false) :
    structRowSum cols (setCellsAux cols r n v) tag mid = structRowSum cols r tag mid := by
  induction cols generalizing r with
  | nil => rfl
  | cons c cs ih =>
    cases r with
    | nil => rfl
    | cons x xs =>
      by_cases h : c = n
      · subst h
        simp [setCellsAux, structRowSum_cons, hn]
      · simp [setCellsAux, h, structRowSum_cons, ih]

/-! ### Lemmas about `step` -/

theorem step_cols_of_mem {t : Table} {n : String}
    (g : List String → List (Option ℚ) → Option ℚ) (h : n ∈ t.cols) :
    (step t n g).cols = t.cols := by
  simp [step, h]

theorem step_cols_of_not_mem {t : Table} {n : String}
    (g : List String → List (Option ℚ) → Option ℚ) (h : n ∉ t.cols) :
    (step t n g).cols = t.cols ++ [n] := by
  simp [step, h]

theorem keys_step (t : Table) (n : String)
    (g : List String → List (Option ℚ) → Option ℚ) : keys (step t n g) = keys t := by
  unfold step keys
  by_cases h : n ∈ t.cols <;> simp [h]

theorem WF_step {t : Table} (n : String)
    (g : List String → List (Option ℚ) → Option ℚ) (hw : WF t) : WF (step t n g) := by
  unfold WF step
  by_cases h : n ∈ t.cols <;> simp only [h, if_pos, if_neg, not_false_iff]
  · intro p hp
    simp only [List.mem_map] at hp
    obtain ⟨q, hq, rfl⟩ := hp
    simp [length_setCellsAux, hw q hq]
  · intro p hp
    simp only [List.mem_map] at hp
    obtain ⟨q, hq, rfl⟩ := hp
    simp [hw q hq]

theorem getColO_step_self (t : Table) (n : String)
    (g : List String → List (Option ℚ) → Option ℚ) (hw : WF t) :
    getColO (step t n g) n = t.rows.map (fun p => g t.cols p.2) := by
  unfold getColO step
  by_cases h : n ∈ t.cols
  · simp only [h, if_pos, List.map_map]
    exact List.map_congr_left fun p hp =>
      colCell_setCellsAux_self t.cols p.2 n _ h (hw p hp)
  · simp only [h, if_neg, not_false_iff, List.map_map]
    refine List.map_congr_left fun p hp => ?_
    simp only [Function.comp]
    exact colCell_append_self t.cols p.2 n _ h (hw p hp)

theorem getColQ_step_self (t : Table) (n : String)
    (g : List String → List (Option ℚ) → Option ℚ) (hw : WF t) :
    getColQ (step t n g) n = t.rows.map (fun p => (g t.cols p.2).getD 0) := by
  rw [getColQ_eq_getColO, getColO_step_self t n g hw, List.map_map]
  rfl

theorem getColO_step_ne (t : Table) {n m : String}
    (g : List String → List (Option ℚ) → Option ℚ) (hnm : m ≠ n) (hw : WF t) :
    getColO (step t n g) m = getColO t m := by
  unfold getColO step
  by_cases h : n ∈ t.cols
  · simp only [h, if_pos, List.map_map]
    exact List.map_congr_left fun p hp => colCell_setCellsAux_ne t.cols p.2 n m _ hnm
  · simp only [h, if_neg, not_false_iff, List.map_map]
    exact List.map_congr_left fun p hp => colCell_append_ne t.cols p.2 n m _ hnm (hw p hp)

theorem getColQ_step_ne (t : Table) {n m : String}
    (g : List String → List (Option ℚ) → Option ℚ) (hnm : m ≠ n) (hw : WF t) :
    getColQ (step t n g) m = getColQ t m := by
  rw [getColQ_eq_getColO, getColO_step_ne t g hnm hw, ← getColQ_eq_getColO]

/-! ### Per-stage bookkeeping lemmas -/

theorem WF_assignIosZero (t : Table) (hw : WF t) : WF (assignIosZero t) :=
  WF_step _ _ hw

theorem keys_assignIosZero (t : Table) : keys (assignIosZero t) = keys t :=
  keys_step _ _ _

theorem getColQ_assignIosZero_ne (t : Table) {m : String} (hm : m ≠ "ios_installs") (hw : WF t) :
    getColQ (assignIosZero t) m = getColQ t m :=
  getColQ_step_ne _ _ hm hw

theorem WF_assignIosInstalls (t : Table) (hw : WF t) : WF (assignIosInstalls t) :=
  WF_step _ _ hw

theorem keys_assignIosInstalls (t : Table) : keys (assignIosInstalls t) = keys t :=
  keys_step _ _ _

theorem getColQ_assignIosInstalls_ne (t : Table) {m : String} (hm : m ≠ "ios_installs") (hw : WF t) :
    getColQ (assignIosInstalls t) m = getColQ t m :=
  getColQ_step_ne _ _ hm hw

theorem WF_assignAndroidInstalls (t : Table) (hw : WF t) : WF (assignAndroidInstalls t) :=
  WF_step _ _ hw

theorem keys_assignAndroidInstalls (t : Table) : keys (assignAndroidInstalls t) = keys t :=
  keys_step _ _ _

theorem getColQ_assignAndroidInstalls_ne (t : Table) {m : String} (hm : m ≠ "android_installs") (hw : WF t) :
    getColQ (assignAndroidInstalls t) m = getColQ t m :=
  getColQ_step_ne _ _ hm hw

theorem WF_assignIosKyc (t : Table) (hw : WF t) : WF (assignIosKyc t) :=
  WF_step _ _ hw

theorem keys_assignIosKyc (t : Table) : keys (assignIosKyc t) = keys t :=
  keys_step _ _ _

theorem getColQ_assignIosKyc_ne (t : Table) {m : String} (hm : m ≠ "ios_kyc") (hw : WF t) :
    getColQ (assignIosKyc t) m = getColQ t m :=
  getColQ_step_ne _ _ hm hw

theorem WF_assignAndroidKyc (t : Table) (hw : WF t) : WF (assignAndroidKyc t) :=
  WF_step _ _ hw

theorem keys_assignAndroidKyc (t : Table) : keys (assignAndroidKyc t) = keys t :=
  keys_step _ _ _

theorem getColQ_assignAndroidKyc_ne (t : Table) {m : String} (hm : m ≠ "android_kyc") (hw : WF t) :
    getColQ (assignAndroidKyc t) m = getColQ t m :=
  getColQ_step_ne _ _ hm hw

theorem WF_assignIosOtp (t : Table) (hw : WF t) : WF (assignIosOtp t) :=
  WF_step _ _ hw

theorem keys_assignIosOtp (t : Table) : keys (assignIosOtp t) = keys t :=
  keys_step _ _ _

theorem getColQ_assignIosOtp_ne (t : Table) {m : String} (hm : m ≠ "ios_otp") (hw : WF t) :
    getColQ (assignIosOtp t) m = getColQ t m :=
  getColQ_step_ne _ _ hm hw

theorem WF_assignAndroidOtp (t : Table) (hw : WF t) : WF (assignAndroidOtp t) :=
  WF_step _ _ hw

theorem keys_assignAndroidOtp (t : Table) : keys (assignAndroidOtp t) = keys t :=
  keys_step _ _ _

theorem getColQ_assignAndroidOtp_ne (t : Table) {m : String} (hm : m ≠ "android_otp") (hw : WF t) :
    getColQ (assignAndroidOtp t) m = getColQ t m :=
  getColQ_step_ne _ _ hm hw

theorem WF_assignTotalInstalls (t : Table) (hw : WF t) : WF (assignTotalInstalls t) :=
  WF_step _ _ hw

theorem keys_assignTotalInstalls (t : Table) : keys (assignTotalInstalls t) = keys t :=
  keys_step _ _ _

theorem getColQ_assignTotalInstalls_ne (t : Table) {m : String} (hm : m ≠ "total_installs") (hw : WF t) :
    getColQ (assignTotalInstalls t) m = getColQ t m :=
  getColQ_step_ne _ _ hm hw

theorem WF_assignTotalKyc (t : Table) (hw : WF t) : WF (assignTotalKyc t) :=
  WF_step _ _ hw

theorem keys_assignTotalKyc (t : Table) : keys (assignTotalKyc t) = keys t :=
  keys_step _ _ _

theorem getColQ_assignTotalKyc_ne (t : Table) {m : String} (hm : m ≠ "total_kyc") (hw : WF t) :
    getColQ (assignTotalKyc t) m = getColQ t m :=
  getColQ_step_ne _ _ hm hw

theorem WF_assignTotalOtp (t : Table) (hw : WF t) : WF (assignTotalOtp t) :=
  WF_step _ _ hw

theorem keys_assignTotalOtp (t : Table) : keys (assignTotalOtp t) = keys t :=
  keys_step _ _ _

theorem getColQ_assignTotalOtp_ne (t : Table) {m : String} (hm : m ≠ "total_otp") (hw : WF t) :
    getColQ (assignTotalOtp t) m = getColQ t m :=
  getColQ_step_ne _ _ hm hw

theorem WF_coerceSpends (t : Table) (hw : WF t) : WF (coerceSpends t) :=
  WF_step _ _ hw

theorem keys_coerceSpends (t : Table) : keys (coerceSpends t) = keys t :=
  keys_step _ _ _

theorem getColQ_coerceSpends_ne (t : Table) {m : String} (hm : m ≠ "Spends") (hw : WF t) :
    getColQ (coerceSpends t) m = getColQ t m :=
  getColQ_step_ne _ _ hm hw

theorem WF_assignInstallToKyc (t : Table) (hw : WF t) : WF (assignInstallToKyc t) :=
  WF_step _ _ hw

theorem keys_assignInstallToKyc (t : Table) : keys (assignInstallToKyc t) = keys t :=
  keys_step _ _ _

theorem getColQ_assignInstallToKyc_ne (t : Table) {m : String} (hm : m ≠ "install_to_kyc") (hw : WF t) :
    getColQ (assignInstallToKyc t) m = getColQ t m :=
  getColQ_step_ne _ _ hm hw

theorem WF_assignInstallToOtp (t : Table) (hw : WF t) : WF (assignInstallToOtp t) :=
  WF_step _ _ hw

theorem keys_assignInstallToOtp (t : Table) : keys (assignInstallToOtp t) = keys t :=
  keys_step _ _ _

theorem getColQ_assignInstallToOtp_ne (t : Table) {m : String} (hm : m ≠ "install_to_otp") (hw : WF t) :
    getColQ (assignInstallToOtp t) m = getColQ t m :=
  getColQ_step_ne _ _ hm hw

theorem WF_assignKycToOtp (t : Table) (hw : WF t) : WF (assignKycToOtp t) :=
  WF_step _ _ hw

theorem keys_assignKycToOtp (t : Table) : keys (assignKycToOtp t) = keys t :=
  keys_step _ _ _

theorem getColQ_assignKycToOtp_ne (t : Table) {m : String} (hm : m ≠ "kyc_to_otp") (hw : WF t) :
    getColQ (assignKycToOtp t) m = getColQ t m :=
  getColQ_step_ne _ _ hm hw

theorem WF_assignCpi (t : Table) (hw : WF t) : WF (assignCpi t) :=
  WF_step _ _ hw

theorem keys_assignCpi (t : Table) : keys (assignCpi t) = keys t :=
  keys_step _ _ _

theorem getColQ_assignCpi_ne (t : Table) {m : String} (hm : m ≠ "cpi") (hw : WF t) :
    getColQ (assignCpi t) m = getColQ t m :=
  getColQ_step_ne _ _ hm hw

theorem colCell_not_mem (cols : List String) (r : List (Option ℚ)) (n : String)
    (hn : n ∉ cols) : colCell cols r n = none := by
  unfold colCell
  rw [List.find?_eq_none.mpr]
  intro x hx
  simp only [decide_eq_true_eq]
  exact fun he => hn (he ▸ (List.of_mem_zip hx).1)

theorem colVal_not_mem (cols : List String) (r : List (Option ℚ)) (n : String)
    (hn : n ∉ cols) : colVal cols r n = 0 := by
  rw [colVal_eq_colCell, colCell_not_mem cols r n hn]
  rfl

theorem WF_ensureSpends (t : Table) (hw : WF t) : WF (ensureSpends t) := by
  unfold ensureSpends
  by_cases h : "Spends" ∈ t.cols
  · rwa [if_pos h]
  · rw [if_neg h]
    exact WF_step _ _ hw

theorem keys_ensureSpends (t : Table) : keys (ensureSpends t) = keys t := by
  unfold ensureSpends
  by_cases h : "Spends" ∈ t.cols
  · rw [if_pos h]
  · rw [if_neg h, keys_step]

theorem getColQ_ensureSpends_ne (t : Table) {m : String} (hm : m ≠ "Spends")
    (hw : WF t) : getColQ (ensureSpends t) m = getColQ t m := by
  unfold ensureSpends
  by_cases h : "Spends" ∈ t.cols
  · rw [if_pos h]
  · rw [if_neg h, getColQ_step_ne _ _ hm hw]

theorem getColQ_ensureSpends_spends (t : Table) (hw : WF t) :
    getColQ (ensureSpends t) "Spends" = getColQ t "Spends" := by
  unfold ensureSpends
  by_cases h : "Spends" ∈ t.cols
  · rw [if_pos h]
  · rw [if_neg h, getColQ_step_self _ _ _ hw]
    unfold getColQ
    refine List.map_congr_left fun p hp => ?_
    rw [colVal_not_mem _ _ _ h]
    rfl

theorem getColQ_coerceSpends_spends (t : Table) (hw : WF t) :
    getColQ (coerceSpends t) "Spends" = getColQ t "Spends" := by
  unfold coerceSpends
  rw [getColQ_step_self _ _ _ hw]
  rfl

theorem getColQ_assignTotalInstalls_self (t : Table) (hw : WF t) :
    getColQ (assignTotalInstalls t) "total_installs" =
      t.rows.map (fun p =>
        colVal t.cols p.2 "ios_installs" + colVal t.cols p.2 "android_installs") := by
  unfold assignTotalInstalls
  rw [getColQ_step_self _ _ _ hw]
  rfl

theorem getColQ_assignTotalKyc_self (t : Table) (hw : WF t) :
    getColQ (assignTotalKyc t) "total_kyc" =
      t.rows.map (fun p => colVal t.cols p.2 "ios_kyc" + colVal t.cols p.2 "android_kyc") := by
  unfold assignTotalKyc
  rw [getColQ_step_self _ _ _ hw]
  rfl

theorem getColQ_assignTotalOtp_self (t : Table) (hw : WF t) :
    getColQ (assignTotalOtp t) "total_otp" =
      t.rows.map (fun p => colVal t.cols p.2 "ios_otp" + colVal t.cols p.2 "android_otp") := by
  unfold assignTotalOtp
  rw [getColQ_step_self _ _ _ hw]
  rfl

theorem getColQ_assignInstallToKyc_self (t : Table) (hw : WF t) :
    getColQ (assignInstallToKyc t) "install_to_kyc" =
      t.rows.map (fun p =>
        pct (colVal t.cols p.2 "total_kyc") (colVal t.cols p.2 "total_installs")) := by
  unfold assignInstallToKyc
  rw [getColQ_step_self _ _ _ hw]
  rfl

theorem getColQ_assignInstallToOtp_self (t : Table) (hw : WF t) :
    getColQ (assignInstallToOtp t) "install_to_otp" =
      t.rows.map (fun p =>
        pct (colVal t.cols p.2 "total_otp") (colVal t.cols p.2 "total_installs")) := by
  unfold assignInstallToOtp
  rw [getColQ_step_self _ _ _ hw]
  rfl

theorem getColQ_assignKycToOtp_self (t : Table) (hw : WF t) :
    getColQ (assignKycToOtp t) "kyc_to_otp" =
      t.rows.map (fun p =>
        pct (colVal t.cols p.2 "total_otp") (colVal t.cols p.2 "total_kyc")) := by
  unfold assignKycToOtp
  rw [getColQ_step_self _ _ _ hw]
  rfl

theorem getColO_assignCpi_self (t : Table) (hw : WF t) :
    getColO (assignCpi t) "cpi" =
      t.rows.map (fun p =>
        if 0 < colVal t.cols p.2 "total_installs" then
          some (colVal t.cols p.2 "Spends" / colVal t.cols p.2 "total_installs")
        else none) := by
  unfold assignCpi
  rw [getColO_step_self _ _ _ hw]

theorem zipWith_map_same {α β γ δ : Type} (f : α → β → γ) (g : δ → α) (h : δ → β)
    (l : List δ) : List.zipWith f (l.map g) (l.map h) = l.map (fun x => f (g x) (h x)) := by
  induction l with
  | nil => rfl
  | cons a l ih => simp [ih]

/-! ### Structural column sums through the assignment stages -/


theorem colVal_cons (c : String) (cs : List String) (x : Option ℚ)
    (xs : List (Option ℚ)) (n : String) :
    colVal (c :: cs) (x :: xs) n = if c = n then x.getD 0 else colVal cs xs n := by
  rw [colVal_eq_colCell, colVal_eq_colCell, colCell_cons]
  by_cases h : c = n <;> simp [h]

theorem structRowSum_setCellsAux_mem (cols : List String) (r : List (Option ℚ))
    (n : String) (v : Option ℚ) (tag mid : String) (hn : n ∈ cols)
    (hl : r.length = cols.length) :
    structRowSum cols (setCellsAux cols r n v) tag mid =
      structRowSum cols r tag mid +
        (if matchesB tag mid n then v.getD 0 - colVal cols r n else 0) := by
  induction cols generalizing r with
  | nil => cases hn
  | cons c cs ih =>
    cases r with
    | nil => simp at hl
    | cons x xs =>
      by_cases h : c = n
      · subst h
        rw [setCellsAux, if_pos rfl, structRowSum_cons, structRowSum_cons,
          colVal_cons, if_pos rfl]
        by_cases hm : matchesB tag mid c
        · rw [if_pos hm, if_pos hm, if_pos hm]
          ring
        · rw [if_neg hm, if_neg hm, if_neg hm]
          ring
      · have hn' : n ∈ cs := by
          cases List.mem_cons.mp hn with
          | inl he => exact absurd he.symm h
          | inr hm => exact hm
        rw [setCellsAux, if_neg h, structRowSum_cons, structRowSum_cons,
          colVal_cons, if_neg h, ih xs hn' (by simpa using hl)]
        ring

theorem structColSum_step_unmatched (t : Table) (n : String)
    (g : List String → List (Option ℚ) → Option ℚ) (tag mid : String)
    (hn : matchesB tag mid n = false) (hw : WF t) :
    structColSum (step t n g) tag mid = structColSum t tag mid := by
  unfold structColSum step
  by_cases h : n ∈ t.cols
  · rw [if_pos h]
    simp only [List.map_map]
    exact List.map_congr_left fun p hp =>
      structRowSum_setCellsAux_unmatched t.cols p.2 n _ tag mid hn
  · rw [if_neg h]
    simp only [List.map_map]
    refine List.map_congr_left fun p hp => ?_
    show structRowSum (t.cols ++ [n]) (p.2 ++ [g t.cols p.2]) tag mid =
      structRowSum t.cols p.2 tag mid
    rw [structRowSum_append _ _ _ _ _ _ (hw p hp), structRowSum_cons]
    simp [structRowSum, hn]

theorem structColSum_step_matched_append (t : Table) (n : String)
    (g : List String → List (Option ℚ) → Option ℚ) (tag mid : String)
    (hn : matchesB tag mid n = true) (hmem : n ∉ t.cols) (hw : WF t) :
    structColSum (step t n g) tag mid =
      t.rows.map (fun p => structRowSum t.cols p.2 tag mid + (g t.cols p.2).getD 0) := by
  unfold structColSum step
  rw [if_neg hmem]
  simp only [List.map_map]
  refine List.map_congr_left fun p hp => ?_
  show structRowSum (t.cols ++ [n]) (p.2 ++ [g t.cols p.2]) tag mid =
    structRowSum t.cols p.2 tag mid + (g t.cols p.2).getD 0
  rw [structRowSum_append _ _ _ _ _ _ (hw p hp), structRowSum_cons]
  simp [structRowSum, hn]

theorem structColSum_step_matched_mem (t : Table) (n : String)
    (g : List String → List (Option ℚ) → Option ℚ) (tag mid : String)
    (hn : matchesB tag mid n = true) (hmem : n ∈ t.cols) (hw : WF t) :
    structColSum (step t n g) tag mid =
      t.rows.map (fun p =>
        structRowSum t.cols p.2 tag mid + ((g t.cols p.2).getD 0 - colVal t.cols p.2 n)) := by
  unfold structColSum step
  rw [if_pos hmem]
  simp only [List.map_map]
  refine List.map_congr_left fun p hp => ?_
  show structRowSum t.cols (setCellsAux t.cols p.2 n (g t.cols p.2)) tag mid = _
  rw [structRowSum_setCellsAux_mem t.cols p.2 n _ tag mid hmem (hw p hp), if_pos hn]

theorem structColSum_ensureSpends_unmatched (t : Table) (tag mid : String)
    (hn : matchesB tag mid "Spends" = false) (hw : WF t) :
    structColSum (ensureSpends t) tag mid = structColSum t tag mid := by
  unfold ensureSpends
  by_cases h : "Spends" ∈ t.cols
  · rw [if_pos h]
  · rw [if_neg h, structColSum_step_unmatched _ _ _ _ _ hn hw]

theorem sum_zipWith_add (l1 l2 : List ℚ) (hl : l1.length = l2.length) :
    (List.zipWith (fun a b => a + b) l1 l2).sum = l1.sum + l2.sum := by
  induction l1 generalizing l2 with
  | nil =>
    have : l2 = [] := List.length_eq_zero.mp hl.symm
    subst this
    simp
  | cons a l ih =>
    cases l2 with
    | nil => simp at hl
    | cons b l2 =>
      rw [List.zipWith_cons_cons, List.sum_cons, List.sum_cons, List.sum_cons,
        ih l2 (by simpa using hl)]
      ring

/-! ### Characterization of the derived columns -/

theorem step_rows_of_not_mem {t : Table} {n : String}
    (g : List String → List (Option ℚ) → Option ℚ) (h : n ∉ t.cols) :
    (step t n g).rows = t.rows.map (fun p => (p.1, p.2 ++ [g t.cols p.2])) := by
  simp [step, h]

theorem step_rows_of_mem {t : Table} {n : String}
    (g : List String → List (Option ℚ) → Option ℚ) (h : n ∈ t.cols) :
    (step t n g).rows = t.rows.map (fun p => (p.1, setCellsAux t.cols p.2 n (g t.cols p.2))) := by
  simp [step, h]

theorem not_mem_cols_step {t : Table} {n m : String}
    (g : List String → List (Option ℚ) → Option ℚ) (hm : m ∉ t.cols) (hmn : m ≠ n) :
    m ∉ (step t n g).cols := by
  unfold step
  by_cases h : n ∈ t.cols
  · rwa [if_pos h]
  · rw [if_neg h]
    intro hx
    cases List.mem_append.mp hx with
    | inl hx => exact hm hx
    | inr hx => exact hmn (List.mem_singleton.mp hx)

theorem mem_cols_step_self (t : Table) (n : String)
    (g : List String → List (Option ℚ) → Option ℚ) : n ∈ (step t n g).cols := by
  unfold step
  by_cases h : n ∈ t.cols
  · rwa [if_pos h]
  · rw [if_neg h]
    exact List.mem_append.mpr (Or.inr (List.mem_singleton.mpr rfl))

theorem mem_cols_step_mono {t : Table} {n m : String}
    (g : List String → List (Option ℚ) → Option ℚ) (hm : m ∈ t.cols) :
    m ∈ (step t n g).cols := by
  unfold step
  by_cases h : n ∈ t.cols
  · rwa [if_pos h]
  · rw [if_neg h]
    exact List.mem_append.mpr (Or.inl hm)

theorem WF_deriveStructStage (t : Table) (hw : WF t) : WF (deriveStructStage t) := by
  unfold deriveStructStage
  exact WF_assignAndroidOtp _ (WF_assignIosOtp _ (WF_assignAndroidKyc _ (WF_assignIosKyc _
    (WF_assignAndroidInstalls _ (WF_assignIosInstalls _ (WF_assignIosZero t hw))))))

theorem WF_deriveTotalsStage (t : Table) (hw : WF t) : WF (deriveTotalsStage t) := by
  unfold deriveTotalsStage
  exact WF_assignTotalOtp _ (WF_assignTotalKyc _ (WF_assignTotalInstalls _
    (WF_deriveStructStage t hw)))

theorem WF_deriveSpendStage (t : Table) (hw : WF t) : WF (deriveSpendStage t) := by
  unfold deriveSpendStage
  exact WF_coerceSpends _ (WF_ensureSpends _ (WF_deriveTotalsStage t hw))

theorem WF_derive (t : Table) (hw : WF t) : WF (derive t) := by
  unfold derive
  exact WF_assignCpi _ (WF_assignKycToOtp _ (WF_assignInstallToOtp _
    (WF_assignInstallToKyc _ (WF_deriveSpendStage t hw))))

theorem keys_deriveStructStage (t : Table) : keys (deriveStructStage t) = keys t := by
  simp only [deriveStructStage, keys_assignAndroidOtp, keys_assignIosOtp,
    keys_assignAndroidKyc, keys_assignIosKyc, keys_assignAndroidInstalls,
    keys_assignIosInstalls, keys_assignIosZero]

theorem keys_deriveTotalsStage (t : Table) : keys (deriveTotalsStage t) = keys t := by
  simp only [deriveTotalsStage, keys_assignTotalOtp, keys_assignTotalKyc,
    keys_assignTotalInstalls, keys_deriveStructStage]

theorem keys_deriveSpendStage (t : Table) : keys (deriveSpendStage t) = keys t := by
  simp only [deriveSpendStage, keys_coerceSpends, keys_ensureSpends, keys_deriveTotalsStage]

theorem keys_derive (t : Table) : keys (derive t) = keys t := by
  simp only [derive, keys_assignCpi, keys_assignKycToOtp, keys_assignInstallToOtp,
    keys_assignInstallToKyc, keys_deriveSpendStage]

theorem getColQ_deriveStructStage_ne (t : Table) {m : String}
    (h1 : m ≠ "ios_installs") (h2 : m ≠ "android_installs") (h3 : m ≠ "ios_kyc")
    (h4 : m ≠ "android_kyc") (h5 : m ≠ "ios_otp") (h6 : m ≠ "android_otp") (hw : WF t) :
    getColQ (deriveStructStage t) m = getColQ t m := by
  unfold deriveStructStage
  have w1 := WF_assignIosZero t hw
  have w2 := WF_assignIosInstalls _ w1
  have w3 := WF_assignAndroidInstalls _ w2
  have w4 := WF_assignIosKyc _ w3
  have w5 := WF_assignAndroidKyc _ w4
  have w6 := WF_assignIosOtp _ w5
  rw [getColQ_assignAndroidOtp_ne _ h6 w6, getColQ_assignIosOtp_ne _ h5 w5,
    getColQ_assignAndroidKyc_ne _ h4 w4, getColQ_assignIosKyc_ne _ h3 w3,
    getColQ_assignAndroidInstalls_ne _ h2 w2, getColQ_assignIosInstalls_ne _ h1 w1,
    getColQ_assignIosZero_ne _ h1 hw]

theorem getColQ_deriveTotalsStage_ne (t : Table) {m : String}
    (h1 : m ≠ "total_installs") (h2 : m ≠ "total_kyc") (h3 : m ≠ "total_otp") (hw : WF t) :
    getColQ (deriveTotalsStage t) m = getColQ (deriveStructStage t) m := by
  unfold deriveTotalsStage
  have w7 := WF_deriveStructStage t hw
  have w8 := WF_assignTotalInstalls _ w7
  have w9 := WF_assignTotalKyc _ w8
  rw [getColQ_assignTotalOtp_ne _ h3 w9, getColQ_assignTotalKyc_ne _ h2 w8,
    getColQ_assignTotalInstalls_ne _ h1 w7]

theorem getColQ_deriveSpendStage_ne (t : Table) {m : String} (h : m ≠ "Spends")
    (hw : WF t) : getColQ (deriveSpendStage t) m = getColQ (deriveTotalsStage t) m := by
  unfold deriveSpendStage
  have w10 := WF_deriveTotalsStage t hw
  have w11 := WF_ensureSpends _ w10
  rw [getColQ_coerceSpends_ne _ h w11, getColQ_ensureSpends_ne _ h w10]

theorem getColQ_derive_late (t : Table) {m : String}
    (h1 : m ≠ "install_to_kyc") (h2 : m ≠ "install_to_otp") (h3 : m ≠ "kyc_to_otp")
    (h4 : m ≠ "cpi") (hw : WF t) :
    getColQ (derive t) m = getColQ (deriveSpendStage t) m := by
  unfold derive
  have w12 := WF_deriveSpendStage t hw
  have w13 := WF_assignInstallToKyc _ w12
  have w14 := WF_assignInstallToOtp _ w13
  have w15 := WF_assignKycToOtp _ w14
  rw [getColQ_assignCpi_ne _ h4 w15, getColQ_assignKycToOtp_ne _ h3 w14,
    getColQ_assignInstallToOtp_ne _ h2 w13, getColQ_assignInstallToKyc_ne _ h1 w12]

theorem derive_spends_col (t : Table) (hw : WF t) :
    getColQ (derive t) "Spends" = getColQ t "Spends" := by
  have w10 := WF_deriveTotalsStage t hw
  have w11 := WF_ensureSpends _ w10
  rw [getColQ_derive_late t (by decide) (by decide) (by decide) (by decide) hw]
  unfold deriveSpendStage
  rw [getColQ_coerceSpends_spends _ w11, getColQ_ensureSpends_spends _ w10,
    getColQ_deriveTotalsStage_ne t (by decide) (by decide) (by decide) hw,
    getColQ_deriveStructStage_ne t (by decide) (by decide) (by decide) (by decide)
      (by decide) (by decide) hw]

theorem getColQ_assignIosInstalls_self (t : Table) (hw : WF t) :
    getColQ (assignIosInstalls t) "ios_installs" = structColSum t "ios" "install" := by
  unfold assignIosInstalls structColSum
  rw [getColQ_step_self _ _ _ hw]
  simp

theorem getColQ_assignAndroidInstalls_self (t : Table) (hw : WF t) :
    getColQ (assignAndroidInstalls t) "android_installs" = structColSum t "android" "install" := by
  unfold assignAndroidInstalls structColSum
  rw [getColQ_step_self _ _ _ hw]
  simp

theorem getColQ_assignIosKyc_self (t : Table) (hw : WF t) :
    getColQ (assignIosKyc t) "ios_kyc" = structColSum t "ios" "kyc" := by
  unfold assignIosKyc structColSum
  rw [getColQ_step_self _ _ _ hw]
  simp

theorem getColQ_assignAndroidKyc_self (t : Table) (hw : WF t) :
    getColQ (assignAndroidKyc t) "android_kyc" = structColSum t "android" "kyc" := by
  unfold assignAndroidKyc structColSum
  rw [getColQ_step_self _ _ _ hw]
  simp

theorem getColQ_assignIosOtp_self (t : Table) (hw : WF t) :
    getColQ (assignIosOtp t) "ios_otp" = structColSum t "ios" "otp" := by
  unfold assignIosOtp structColSum
  rw [getColQ_step_self _ _ _ hw]
  simp

theorem getColQ_assignAndroidOtp_self (t : Table) (hw : WF t) :
    getColQ (assignAndroidOtp t) "android_otp" = structColSum t "android" "otp" := by
  unfold assignAndroidOtp structColSum
  rw [getColQ_step_self _ _ _ hw]
  simp

theorem structColSum_assignIosZero_unmatched (t : Table) (tag mid : String)
    (hn : matchesB tag mid "ios_installs" = false) (hw : WF t) :
    structColSum (assignIosZero t) tag mid = structColSum t tag mid := by
  unfold assignIosZero
  exact structColSum_step_unmatched _ _ _ _ _ hn hw

theorem structColSum_assignIosInstalls_unmatched (t : Table) (tag mid : String)
    (hn : matchesB tag mid "ios_installs" = false) (hw : WF t) :
    structColSum (assignIosInstalls t) tag mid = structColSum t tag mid := by
  unfold assignIosInstalls
  exact structColSum_step_unmatched _ _ _ _ _ hn hw

theorem structColSum_assignAndroidInstalls_unmatched (t : Table) (tag mid : String)
    (hn : matchesB tag mid "android_installs" = false) (hw : WF t) :
    structColSum (assignAndroidInstalls t) tag mid = structColSum t tag mid := by
  unfold assignAndroidInstalls
  exact structColSum_step_unmatched _ _ _ _ _ hn hw

theorem structColSum_assignIosKyc_unmatched (t : Table) (tag mid : String)
    (hn : matchesB tag mid "ios_kyc" = false) (hw : WF t) :
    structColSum (assignIosKyc t) tag mid = structColSum t tag mid := by
  unfold assignIosKyc
  exact structColSum_step_unmatched _ _ _ _ _ hn hw

theorem structColSum_assignAndroidKyc_unmatched (t : Table) (tag mid : String)
    (hn : matchesB tag mid "android_kyc" = false) (hw : WF t) :
    structColSum (assignAndroidKyc t) tag mid = structColSum t tag mid := by
  unfold assignAndroidKyc
  exact structColSum_step_unmatched _ _ _ _ _ hn hw

theorem structColSum_assignIosOtp_unmatched (t : Table) (tag mid : String)
    (hn : matchesB tag mid "ios_otp" = false) (hw : WF t) :
    structColSum (assignIosOtp t) tag mid = structColSum t tag mid := by
  unfold assignIosOtp
  exact structColSum_step_unmatched _ _ _ _ _ hn hw

theorem structColSum_assignAndroidOtp_unmatched (t : Table) (tag mid : String)
    (hn : matchesB tag mid "android_otp" = false) (hw : WF t) :
    structColSum (assignAndroidOtp t) tag mid = structColSum t tag mid := by
  unfold assignAndroidOtp
  exact structColSum_step_unmatched _ _ _ _ _ hn hw

theorem structColSum_assignTotalInstalls_unmatched (t : Table) (tag mid : String)
    (hn : matchesB tag mid "total_installs" = false) (hw : WF t) :
    structColSum (assignTotalInstalls t) tag mid = structColSum t tag mid := by
  unfold assignTotalInstalls
  exact structColSum_step_unmatched _ _ _ _ _ hn hw

theorem structColSum_assignTotalKyc_unmatched (t : Table) (tag mid : String)
    (hn : matchesB tag mid "total_kyc" = false) (hw : WF t) :
    structColSum (assignTotalKyc t) tag mid = structColSum t tag mid := by
  unfold assignTotalKyc
  exact structColSum_step_unmatched _ _ _ _ _ hn hw

theorem structColSum_assignTotalOtp_unmatched (t : Table) (tag mid : String)
    (hn : matchesB tag mid "total_otp" = false) (hw : WF t) :
    structColSum (assignTotalOtp t) tag mid = structColSum t tag mid := by
  unfold assignTotalOtp
  exact structColSum_step_unmatched _ _ _ _ _ hn hw

theorem structColSum_coerceSpends_unmatched (t : Table) (tag mid : String)
    (hn : matchesB tag mid "Spends" = false) (hw : WF t) :
    structColSum (coerceSpends t) tag mid = structColSum t tag mid := by
  unfold coerceSpends
  exact structColSum_step_unmatched _ _ _ _ _ hn hw

theorem structColSum_assignInstallToKyc_unmatched (t : Table) (tag mid : String)
    (hn : matchesB tag mid "install_to_kyc" = false) (hw : WF t) :
    structColSum (assignInstallToKyc t) tag mid = structColSum t tag mid := by
  unfold assignInstallToKyc
  exact structColSum_step_unmatched _ _ _ _ _ hn hw

theorem structColSum_assignInstallToOtp_unmatched (t : Table) (tag mid : String)
    (hn : matchesB tag mid "install_to_otp" = false) (hw : WF t) :
    structColSum (assignInstallToOtp t) tag mid = structColSum t tag mid := by
  unfold assignInstallToOtp
  exact structColSum_step_unmatched _ _ _ _ _ hn hw

theorem structColSum_assignKycToOtp_unmatched (t : Table) (tag mid : String)
    (hn : matchesB tag mid "kyc_to_otp" = false) (hw : WF t) :
    structColSum (assignKycToOtp t) tag mid = structColSum t tag mid := by
  unfold assignKycToOtp
  exact structColSum_step_unmatched _ _ _ _ _ hn hw

theorem structColSum_assignCpi_unmatched (t : Table) (tag mid : String)
    (hn : matchesB tag mid "cpi" = false) (hw : WF t) :
    structColSum (assignCpi t) tag mid = structColSum t tag mid := by
  unfold assignCpi
  exact structColSum_step_unmatched _ _ _ _ _ hn hw

theorem structColSum_totalsAndLater_unmatched (t : Table) (tag mid : String)
    (h1 : matchesB tag mid "total_installs" = false)
    (h2 : matchesB tag mid "total_kyc" = false)
    (h3 : matchesB tag mid "total_otp" = false)
    (h4 : matchesB tag mid "Spends" = false)
    (h5 : matchesB tag mid "install_to_kyc" = false)
    (h6 : matchesB tag mid "install_to_otp" = false)
    (h7 : matchesB tag mid "kyc_to_otp" = false)
    (h8 : matchesB tag mid "cpi" = false) (hw : WF t) :
    structColSum (derive t) tag mid = structColSum (deriveStructStage t) tag mid := by
  have w7 := WF_deriveStructStage t hw
  have w8 := WF_assignTotalInstalls _ w7
  have w9 := WF_assignTotalKyc _ w8
  have w10 := WF_deriveTotalsStage t hw
  have w11 := WF_ensureSpends _ w10
  have w12 := WF_deriveSpendStage t hw
  have w13 := WF_assignInstallToKyc _ w12
  have w14 := WF_assignInstallToOtp _ w13
  have w15 := WF_assignKycToOtp _ w14
  unfold derive
  rw [structColSum_assignCpi_unmatched _ _ _ h8 w15,
    structColSum_assignKycToOtp_unmatched _ _ _ h7 w14,
    structColSum_assignInstallToOtp_unmatched _ _ _ h6 w13,
    structColSum_assignInstallToKyc_unmatched _ _ _ h5 w12]
  unfold deriveSpendStage
  rw [structColSum_coerceSpends_unmatched _ _ _ h4 w11,
    structColSum_ensureSpends_unmatched _ _ _ h4 w10]
  unfold deriveTotalsStage
  rw [structColSum_assignTotalOtp_unmatched _ _ _ h3 w9,
    structColSum_assignTotalKyc_unmatched _ _ _ h2 w8,
    structColSum_assignTotalInstalls_unmatched _ _ _ h1 w7]

theorem structColSum_assignIosZero_fresh (t : Table)
    (hfresh : "ios_installs" ∉ t.cols) (hw : WF t) :
    structColSum (assignIosZero t) "ios" "install" = structColSum t "ios" "install" := by
  unfold assignIosZero
  rw [structColSum_step_matched_append _ _ _ _ _ (by decide) hfresh hw]
  simp [structColSum]

theorem derive_android_installs_col (t : Table) (hw : WF t) :
    getColQ (derive t) "android_installs" = structColSum t "android" "install" := by
  have w1 := WF_assignIosZero t hw
  have w2 := WF_assignIosInstalls _ w1
  have w3 := WF_assignAndroidInstalls _ w2
  have w4 := WF_assignIosKyc _ w3
  have w5 := WF_assignAndroidKyc _ w4
  have w6 := WF_assignIosOtp _ w5
  rw [getColQ_derive_late t (by decide) (by decide) (by decide) (by decide) hw,
    getColQ_deriveSpendStage_ne t (by decide) hw,
    getColQ_deriveTotalsStage_ne t (by decide) (by decide) (by decide) hw]
  unfold deriveStructStage
  rw [getColQ_assignAndroidOtp_ne _ (by decide) w6, getColQ_assignIosOtp_ne _ (by decide) w5,
    getColQ_assignAndroidKyc_ne _ (by decide) w4, getColQ_assignIosKyc_ne _ (by decide) w3,
    getColQ_assignAndroidInstalls_self _ w2,
    structColSum_assignIosInstalls_unmatched _ _ _ (by decide) w1,
    structColSum_assignIosZero_unmatched _ _ _ (by decide) hw]

theorem derive_ios_kyc_col (t : Table) (hw : WF t) :
    getColQ (derive t) "ios_kyc" = structColSum t "ios" "kyc" := by
  have w1 := WF_assignIosZero t hw
  have w2 := WF_assignIosInstalls _ w1
  have w3 := WF_assignAndroidInstalls _ w2
  have w4 := WF_assignIosKyc _ w3
  have w5 := WF_assignAndroidKyc _ w4
  have w6 := WF_assignIosOtp _ w5
  rw [getColQ_derive_late t (by decide) (by decide) (by decide) (by decide) hw,
    getColQ_deriveSpendStage_ne t (by decide) hw,
    getColQ_deriveTotalsStage_ne t (by decide) (by decide) (by decide) hw]
  unfold deriveStructStage
  rw [getColQ_assignAndroidOtp_ne _ (by decide) w6, getColQ_assignIosOtp_ne _ (by decide) w5,
    getColQ_assignAndroidKyc_ne _ (by decide) w4, getColQ_assignIosKyc_self _ w3,
    structColSum_assignAndroidInstalls_unmatched _ _ _ (by decide) w2,
    structColSum_assignIosInstalls_unmatched _ _ _ (by decide) w1,
    structColSum_assignIosZero_unmatched _ _ _ (by decide) hw]

theorem derive_android_kyc_col (t : Table) (hw : WF t) :
    getColQ (derive t) "android_kyc" = structColSum t "android" "kyc" := by
  have w1 := WF_assignIosZero t hw
  have w2 := WF_assignIosInstalls _ w1
  have w3 := WF_assignAndroidInstalls _ w2
  have w4 := WF_assignIosKyc _ w3
  have w5 := WF_assignAndroidKyc _ w4
  have w6 := WF_assignIosOtp _ w5
  rw [getColQ_derive_late t (by decide) (by decide) (by decide) (by decide) hw,
    getColQ_deriveSpendStage_ne t (by decide) hw,
    getColQ_deriveTotalsStage_ne t (by decide) (by decide) (by decide) hw]
  unfold deriveStructStage
  rw [getColQ_assignAndroidOtp_ne _ (by decide) w6, getColQ_assignIosOtp_ne _ (by decide) w5,
    getColQ_assignAndroidKyc_self _ w4,
    structColSum_assignIosKyc_unmatched _ _ _ (by decide) w3,
    structColSum_assignAndroidInstalls_unmatched _ _ _ (by decide) w2,
    structColSum_assignIosInstalls_unmatched _ _ _ (by decide) w1,
    structColSum_assignIosZero_unmatched _ _ _ (by decide) hw]

theorem derive_ios_otp_col (t : Table) (hw : WF t) :
    getColQ (derive t) "ios_otp" = structColSum t "ios" "otp" := by
  have w1 := WF_assignIosZero t hw
  have w2 := WF_assignIosInstalls _ w1
  have w3 := WF_assignAndroidInstalls _ w2
  have w4 := WF_assignIosKyc _ w3
  have w5 := WF_assignAndroidKyc _ w4
  have w6 := WF_assignIosOtp _ w5
  rw [getColQ_derive_late t (by decide) (by decide) (by decide) (by decide) hw,
    getColQ_deriveSpendStage_ne t (by decide) hw,
    getColQ_deriveTotalsStage_ne t (by decide) (by decide) (by decide) hw]
  unfold deriveStructStage
  rw [getColQ_assignAndroidOtp_ne _ (by decide) w6, getColQ_assignIosOtp_self _ w5,
    structColSum_assignAndroidKyc_unmatched _ _ _ (by decide) w4,
    structColSum_assignIosKyc_unmatched _ _ _ (by decide) w3,
    structColSum_assignAndroidInstalls_unmatched _ _ _ (by decide) w2,
    structColSum_assignIosInstalls_unmatched _ _ _ (by decide) w1,
    structColSum_assignIosZero_unmatched _ _ _ (by decide) hw]

theorem derive_android_otp_col (t : Table) (hw : WF t) :
    getColQ (derive t) "android_otp" = structColSum t "android" "otp" := by
  have w1 := WF_assignIosZero t hw
  have w2 := WF_assignIosInstalls _ w1
  have w3 := WF_assignAndroidInstalls _ w2
  have w4 := WF_assignIosKyc _ w3
  have w5 := WF_assignAndroidKyc _ w4
  have w6 := WF_assignIosOtp _ w5
  rw [getColQ_derive_late t (by decide) (by decide) (by decide) (by decide) hw,
    getColQ_deriveSpendStage_ne t (by decide) hw,
    getColQ_deriveTotalsStage_ne t (by decide) (by decide) (by decide) hw]
  unfold deriveStructStage
  rw [getColQ_assignAndroidOtp_self _ w6,
    structColSum_assignIosOtp_unmatched _ _ _ (by decide) w5,
    structColSum_assignAndroidKyc_unmatched _ _ _ (by decide) w4,
    structColSum_assignIosKyc_unmatched _ _ _ (by decide) w3,
    structColSum_assignAndroidInstalls_unmatched _ _ _ (by decide) w2,
    structColSum_assignIosInstalls_unmatched _ _ _ (by decide) w1,
    structColSum_assignIosZero_unmatched _ _ _ (by decide) hw]

theorem derive_ios_installs_col (t : Table) (hfresh : "ios_installs" ∉ t.cols)
    (hw : WF t) : getColQ (derive t) "ios_installs" = structColSum t "ios" "install" := by
  have w1 := WF_assignIosZero t hw
  have w2 := WF_assignIosInstalls _ w1
  have w3 := WF_assignAndroidInstalls _ w2
  have w4 := WF_assignIosKyc _ w3
  have w5 := WF_assignAndroidKyc _ w4
  have w6 := WF_assignIosOtp _ w5
  rw [getColQ_derive_late t (by decide) (by decide) (by decide) (by decide) hw,
    getColQ_deriveSpendStage_ne t (by decide) hw,
    getColQ_deriveTotalsStage_ne t (by decide) (by decide) (by decide) hw]
  unfold deriveStructStage
  rw [getColQ_assignAndroidOtp_ne _ (by decide) w6, getColQ_assignIosOtp_ne _ (by decide) w5,
    getColQ_assignAndroidKyc_ne _ (by decide) w4, getColQ_assignIosKyc_ne _ (by decide) w3,
    getColQ_assignAndroidInstalls_ne _ (by decide) w2, getColQ_assignIosInstalls_self _ w1,
    structColSum_assignIosZero_fresh t hfresh hw]

theorem derive_total_installs_col (t : Table) (hw : WF t) :
    getColQ (derive t) "total_installs" =
      List.zipWith (fun a b => a + b) (getColQ (derive t) "ios_installs")
        (getColQ (derive t) "android_installs") := by
  have w7 := WF_deriveStructStage t hw
  have w8 := WF_assignTotalInstalls _ w7
  have w9 := WF_assignTotalKyc _ w8
  have hIos : getColQ (derive t) "ios_installs" = getColQ (deriveStructStage t) "ios_installs" := by
    rw [getColQ_derive_late t (by decide) (by decide) (by decide) (by decide) hw,
      getColQ_deriveSpendStage_ne t (by decide) hw,
      getColQ_deriveTotalsStage_ne t (by decide) (by decide) (by decide) hw]
  have hAnd : getColQ (derive t) "android_installs" =
      getColQ (deriveStructStage t) "android_installs" := by
    rw [getColQ_derive_late t (by decide) (by decide) (by decide) (by decide) hw,
      getColQ_deriveSpendStage_ne t (by decide) hw,
      getColQ_deriveTotalsStage_ne t (by decide) (by decide) (by decide) hw]
  rw [hIos, hAnd, getColQ_derive_late t (by decide) (by decide) (by decide) (by decide) hw,
    getColQ_deriveSpendStage_ne t (by decide) hw]
  unfold deriveTotalsStage
  rw [getColQ_assignTotalOtp_ne _ (by decide) w9, getColQ_assignTotalKyc_ne _ (by decide) w8,
    getColQ_assignTotalInstalls_self _ w7]
  unfold getColQ
  rw [zipWith_map_same]

theorem derive_total_kyc_col (t : Table) (hw : WF t) :
    getColQ (derive t) "total_kyc" =
      List.zipWith (fun a b => a + b) (getColQ (derive t) "ios_kyc")
        (getColQ (derive t) "android_kyc") := by
  have w7 := WF_deriveStructStage t hw
  have w8 := WF_assignTotalInstalls _ w7
  have w9 := WF_assignTotalKyc _ w8
  have hIos : getColQ (derive t) "ios_kyc" = getColQ (assignTotalInstalls (deriveStructStage t)) "ios_kyc" := by
    rw [getColQ_derive_late t (by decide) (by decide) (by decide) (by decide) hw,
      getColQ_deriveSpendStage_ne t (by decide) hw]
    unfold deriveTotalsStage
    rw [getColQ_assignTotalOtp_ne _ (by decide) w9, getColQ_assignTotalKyc_ne _ (by decide) w8]
  have hAnd : getColQ (derive t) "android_kyc" =
      getColQ (assignTotalInstalls (deriveStructStage t)) "android_kyc" := by
    rw [getColQ_derive_late t (by decide) (by decide) (by decide) (by decide) hw,
      getColQ_deriveSpendStage_ne t (by decide) hw]
    unfold deriveTotalsStage
    rw [getColQ_assignTotalOtp_ne _ (by decide) w9, getColQ_assignTotalKyc_ne _ (by decide) w8]
  rw [hIos, hAnd, getColQ_derive_late t (by decide) (by decide) (by decide) (by decide) hw,
    getColQ_deriveSpendStage_ne t (by decide) hw]
  unfold deriveTotalsStage
  rw [getColQ_assignTotalOtp_ne _ (by decide) w9, getColQ_assignTotalKyc_self _ w8]
  unfold getColQ
  rw [zipWith_map_same]

theorem derive_total_otp_col (t : Table) (hw : WF t) :
    getColQ (derive t) "total_otp" =
      List.zipWith (fun a b => a + b) (getColQ (derive t) "ios_otp")
        (getColQ (derive t) "android_otp") := by
  have w7 := WF_deriveStructStage t hw
  have w8 := WF_assignTotalInstalls _ w7
  have w9 := WF_assignTotalKyc _ w8
  have hIos : getColQ (derive t) "ios_otp" = getColQ (assignTotalKyc (assignTotalInstalls (deriveStructStage t))) "ios_otp" := by
    rw [getColQ_derive_late t (by decide) (by decide) (by decide) (by decide) hw,
      getColQ_deriveSpendStage_ne t (by decide) hw]
    unfold deriveTotalsStage
    rw [getColQ_assignTotalOtp_ne _ (by decide) w9]
  have hAnd : getColQ (derive t) "android_otp" =
      getColQ (assignTotalKyc (assignTotalInstalls (deriveStructStage t))) "android_otp" := by
    rw [getColQ_derive_late t (by decide) (by decide) (by decide) (by decide) hw,
      getColQ_deriveSpendStage_ne t (by decide) hw]
    unfold deriveTotalsStage
    rw [getColQ_assignTotalOtp_ne _ (by decide) w9]
  rw [hIos, hAnd, getColQ_derive_late t (by decide) (by decide) (by decide) (by decide) hw,
    getColQ_deriveSpendStage_ne t (by decide) hw]
  unfold deriveTotalsStage
  rw [getColQ_assignTotalOtp_self _ w9]
  unfold getColQ
  rw [zipWith_map_same]

theorem derive_install_to_kyc_col (t : Table) (hw : WF t) :
    getColQ (derive t) "install_to_kyc" =
      List.zipWith (fun k i => if 0 < i then k / i * 100 else 0)
        (getColQ (derive t) "total_kyc") (getColQ (derive t) "total_installs") := by
  have w12 := WF_deriveSpendStage t hw
  have w13 := WF_assignInstallToKyc _ w12
  have w14 := WF_assignInstallToOtp _ w13
  have w15 := WF_assignKycToOtp _ w14
  have hK : getColQ (derive t) "total_kyc" = getColQ (deriveSpendStage t) "total_kyc" :=
    getColQ_derive_late t (by decide) (by decide) (by decide) (by decide) hw
  have hI : getColQ (derive t) "total_installs" =
      getColQ (deriveSpendStage t) "total_installs" :=
    getColQ_derive_late t (by decide) (by decide) (by decide) (by decide) hw
  rw [hK, hI]
  unfold derive
  rw [getColQ_assignCpi_ne _ (by decide) w15, getColQ_assignKycToOtp_ne _ (by decide) w14,
    getColQ_assignInstallToOtp_ne _ (by decide) w13, getColQ_assignInstallToKyc_self _ w12]
  unfold getColQ
  rw [zipWith_map_same]
  rfl

theorem derive_install_to_otp_col (t : Table) (hw : WF t) :
    getColQ (derive t) "install_to_otp" =
      List.zipWith (fun o i => if 0 < i then o / i * 100 else 0)
        (getColQ (derive t) "total_otp") (getColQ (derive t) "total_installs") := by
  have w12 := WF_deriveSpendStage t hw
  have w13 := WF_assignInstallToKyc _ w12
  have w14 := WF_assignInstallToOtp _ w13
  have w15 := WF_assignKycToOtp _ w14
  have hO : getColQ (derive t) "total_otp" =
      getColQ (assignInstallToKyc (deriveSpendStage t)) "total_otp" := by
    unfold derive
    rw [getColQ_assignCpi_ne _ (by decide) w15, getColQ_assignKycToOtp_ne _ (by decide) w14,
      getColQ_assignInstallToOtp_ne _ (by decide) w13]
  have hI : getColQ (derive t) "total_installs" =
      getColQ (assignInstallToKyc (deriveSpendStage t)) "total_installs" := by
    unfold derive
    rw [getColQ_assignCpi_ne _ (by decide) w15, getColQ_assignKycToOtp_ne _ (by decide) w14,
      getColQ_assignInstallToOtp_ne _ (by decide) w13]
  rw [hO, hI]
  unfold derive
  rw [getColQ_assignCpi_ne _ (by decide) w15, getColQ_assignKycToOtp_ne _ (by decide) w14,
    getColQ_assignInstallToOtp_self _ w13]
  unfold getColQ
  rw [zipWith_map_same]
  rfl

theorem derive_kyc_to_otp_col (t : Table) (hw : WF t) :
    getColQ (derive t) "kyc_to_otp" =
      List.zipWith (fun o k => if 0 < k then o / k * 100 else 0)
        (getColQ (derive t) "total_otp") (getColQ (derive t) "total_kyc") := by
  have w12 := WF_deriveSpendStage t hw
  have w13 := WF_assignInstallToKyc _ w12
  have w14 := WF_assignInstallToOtp _ w13
  have w15 := WF_assignKycToOtp _ w14
  have hO : getColQ (derive t) "total_otp" =
      getColQ (assignInstallToOtp (assignInstallToKyc (deriveSpendStage t))) "total_otp" := by
    unfold derive
    rw [getColQ_assignCpi_ne _ (by decide) w15, getColQ_assignKycToOtp_ne _ (by decide) w14]
  have hK : getColQ (derive t) "total_kyc" =
      getColQ (assignInstallToOtp (assignInstallToKyc (deriveSpendStage t))) "total_kyc" := by
    unfold derive
    rw [getColQ_assignCpi_ne _ (by decide) w15, getColQ_assignKycToOtp_ne _ (by decide) w14]
  rw [hO, hK]
  unfold derive
  rw [getColQ_assignCpi_ne _ (by decide) w15, getColQ_assignKycToOtp_self _ w14]
  unfold getColQ
  rw [zipWith_map_same]
  rfl

theorem derive_cpi_col (t : Table) (hw : WF t) :
    getColO (derive t) "cpi" =
      List.zipWith (fun s i => if 0 < i then some (s / i) else none)
        (getColQ (derive t) "Spends") (getColQ (derive t) "total_installs") := by
  have w12 := WF_deriveSpendStage t hw
  have w13 := WF_assignInstallToKyc _ w12
  have w14 := WF_assignInstallToOtp _ w13
  have w15 := WF_assignKycToOtp _ w14
  have hS : getColQ (derive t) "Spends" =
      getColQ (assignKycToOtp (assignInstallToOtp (assignInstallToKyc
        (deriveSpendStage t)))) "Spends" := by
    unfold derive
    rw [getColQ_assignCpi_ne _ (by decide) w15]
  have hI : getColQ (derive t) "total_installs" =
      getColQ (assignKycToOtp (assignInstallToOtp (assignInstallToKyc
        (deriveSpendStage t)))) "total_installs" := by
    unfold derive
    rw [getColQ_assignCpi_ne _ (by decide) w15]
  rw [hS, hI]
  unfold derive
  rw [getColO_assignCpi_self _ w15]
  unfold getColQ
  rw [zipWith_map_same]

/-! ### Re-derivation: how a second pass reads the first pass's columns -/

theorem mem_cols_ensureSpends_mono {t : Table} {m : String} (hm : m ∈ t.cols) :
    m ∈ (ensureSpends t).cols := by
  unfold ensureSpends
  by_cases h : "Spends" ∈ t.cols
  · rwa [if_pos h]
  · rw [if_neg h]
    exact mem_cols_step_mono _ hm

theorem ios_installs_mem_derive (t : Table) : "ios_installs" ∈ (derive t).cols := by
  unfold derive deriveSpendStage deriveTotalsStage deriveStructStage assignCpi
    assignKycToOtp assignInstallToOtp assignInstallToKyc coerceSpends assignTotalOtp
    assignTotalKyc assignTotalInstalls assignAndroidOtp assignIosOtp assignAndroidKyc
    assignIosKyc assignAndroidInstalls assignIosInstalls assignIosZero
  exact mem_cols_step_mono _ (mem_cols_step_mono _ (mem_cols_step_mono _
    (mem_cols_step_mono _ (mem_cols_step_mono _ (mem_cols_ensureSpends_mono
      (mem_cols_step_mono _ (mem_cols_step_mono _ (mem_cols_step_mono _
        (mem_cols_step_mono _ (mem_cols_step_mono _ (mem_cols_step_mono _
          (mem_cols_step_mono _ (mem_cols_step_mono _ (mem_cols_step_mono _
            (mem_cols_step_self t "ios_installs" _)))))))))))))))

theorem android_installs_mem_derive (t : Table) : "android_installs" ∈ (derive t).cols := by
  unfold derive deriveSpendStage deriveTotalsStage deriveStructStage assignCpi
    assignKycToOtp assignInstallToOtp assignInstallToKyc coerceSpends assignTotalOtp
    assignTotalKyc assignTotalInstalls assignAndroidOtp assignIosOtp assignAndroidKyc
    assignIosKyc assignAndroidInstalls
  exact mem_cols_step_mono _ (mem_cols_step_mono _ (mem_cols_step_mono _
    (mem_cols_step_mono _ (mem_cols_step_mono _ (mem_cols_ensureSpends_mono
      (mem_cols_step_mono _ (mem_cols_step_mono _ (mem_cols_step_mono _
        (mem_cols_step_mono _ (mem_cols_step_mono _ (mem_cols_step_mono _
          (mem_cols_step_mono _ (mem_cols_step_self _ "android_installs" _)))))))))))))

theorem structColSum_derive_android_install (t : Table)
    (hmem : "android_installs" ∉ t.cols) (hw : WF t) :
    structColSum (derive t) "android" "install" =
      (structColSum t "android" "install").map (fun q => q + q) := by
  have w1 := WF_assignIosZero t hw
  have w2 := WF_assignIosInstalls _ w1
  have w3 := WF_assignAndroidInstalls _ w2
  have w4 := WF_assignIosKyc _ w3
  have w5 := WF_assignAndroidKyc _ w4
  have w6 := WF_assignIosOtp _ w5
  have hm1 : "android_installs" ∉ (assignIosZero t).cols := by
    unfold assignIosZero
    exact not_mem_cols_step _ hmem (by decide)
  have hm2 : "android_installs" ∉ (assignIosInstalls (assignIosZero t)).cols := by
    unfold assignIosInstalls
    exact not_mem_cols_step _ hm1 (by decide)
  have hT2 : structColSum (assignIosInstalls (assignIosZero t)) "android" "install" =
      structColSum t "android" "install" := by
    rw [structColSum_assignIosInstalls_unmatched _ _ _ (by decide) w1,
      structColSum_assignIosZero_unmatched _ _ _ (by decide) hw]
  rw [structColSum_totalsAndLater_unmatched t "android" "install" (by decide) (by decide)
    (by decide) (by decide) (by decide) (by decide) (by decide) (by decide) hw]
  unfold deriveStructStage
  rw [structColSum_assignAndroidOtp_unmatched _ _ _ (by decide) w6,
    structColSum_assignIosOtp_unmatched _ _ _ (by decide) w5,
    structColSum_assignAndroidKyc_unmatched _ _ _ (by decide) w4,
    structColSum_assignIosKyc_unmatched _ _ _ (by decide) w3]
  unfold assignAndroidInstalls
  rw [structColSum_step_matched_append _ _ _ _ _ (by decide) hm2 w2, ← hT2]
  unfold structColSum
  rw [List.map_map]
  rfl

theorem structColSum_derive_ios_install (t : Table)
    (hfresh : "ios_installs" ∉ t.cols) (hw : WF t) :
    structColSum (derive t) "ios" "install" =
      (structColSum t "ios" "install").map (fun q => q + q) := by
  have w1 := WF_assignIosZero t hw
  have w2 := WF_assignIosInstalls _ w1
  have w3 := WF_assignAndroidInstalls _ w2
  have w4 := WF_assignIosKyc _ w3
  have w5 := WF_assignAndroidKyc _ w4
  have w6 := WF_assignIosOtp _ w5
  have hmemT1 : "ios_installs" ∈ (assignIosZero t).cols := by
    unfold assignIosZero
    exact mem_cols_step_self _ _ _
  have hr : (assignIosZero t).rows = t.rows.map (fun p => (p.1, p.2 ++ [some 0])) := by
    unfold assignIosZero
    exact step_rows_of_not_mem _ hfresh
  have hc : (assignIosZero t).cols = t.cols ++ ["ios_installs"] := by
    unfold assignIosZero
    exact step_cols_of_not_mem _ hfresh
  rw [structColSum_totalsAndLater_unmatched t "ios" "install" (by decide) (by decide)
    (by decide) (by decide) (by decide) (by decide) (by decide) (by decide) hw]
  unfold deriveStructStage
  rw [structColSum_assignAndroidOtp_unmatched _ _ _ (by decide) w6,
    structColSum_assignIosOtp_unmatched _ _ _ (by decide) w5,
    structColSum_assignAndroidKyc_unmatched _ _ _ (by decide) w4,
    structColSum_assignIosKyc_unmatched _ _ _ (by decide) w3,
    structColSum_assignAndroidInstalls_unmatched _ _ _ (by decide) w2]
  unfold assignIosInstalls
  rw [structColSum_step_matched_mem _ _ _ _ _ (by decide) hmemT1 w1]
  rw [hr, hc, List.map_map]
  unfold structColSum
  rw [List.map_map]
  refine List.map_congr_left fun p hp => ?_
  show structRowSum (t.cols ++ ["ios_installs"]) (p.2 ++ [some 0]) "ios" "install" +
      ((some (structRowSum (t.cols ++ ["ios_installs"]) (p.2 ++ [some 0]) "ios" "install")).getD 0
        - colVal (t.cols ++ ["ios_installs"]) (p.2 ++ [some 0]) "ios_installs") =
    structRowSum t.cols p.2 "ios" "install" + structRowSum t.cols p.2 "ios" "install"
  rw [structRowSum_append _ _ _ _ _ _ (hw p hp), colVal_eq_colCell,
    colCell_append_self _ _ _ _ hfresh (hw p hp)]
  have h0 : structRowSum ["ios_installs"] [some 0] "ios" "install" = 0 := by
    rw [structRowSum_cons]
    simp [structRowSum]
  rw [h0]
  simp

theorem zipWith_sub_double (l : List ℚ) :
    List.zipWith (fun s v => s - v) (l.map (fun q => q + q)) l = l := by
  induction l with
  | nil => rfl
  | cons a l ih =>
    simp only [List.map_cons, List.zipWith_cons_cons, ih]
    congr 1
    ring

theorem derive_ios_installs_col_mem (t : Table) (hmem : "ios_installs" ∈ t.cols)
    (hw : WF t) :
    getColQ (derive t) "ios_installs" =
      List.zipWith (fun s v => s - v) (structColSum t "ios" "install")
        (getColQ t "ios_installs") := by
  have w1 := WF_assignIosZero t hw
  have w2 := WF_assignIosInstalls _ w1
  have w3 := WF_assignAndroidInstalls _ w2
  have w4 := WF_assignIosKyc _ w3
  have w5 := WF_assignAndroidKyc _ w4
  have w6 := WF_assignIosOtp _ w5
  rw [getColQ_derive_late t (by decide) (by decide) (by decide) (by decide) hw,
    getColQ_deriveSpendStage_ne t (by decide) hw,
    getColQ_deriveTotalsStage_ne t (by decide) (by decide) (by decide) hw]
  unfold deriveStructStage
  rw [getColQ_assignAndroidOtp_ne _ (by decide) w6, getColQ_assignIosOtp_ne _ (by decide) w5,
    getColQ_assignAndroidKyc_ne _ (by decide) w4, getColQ_assignIosKyc_ne _ (by decide) w3,
    getColQ_assignAndroidInstalls_ne _ (by decide) w2, getColQ_assignIosInstalls_self _ w1]
  unfold assignIosZero
  rw [structColSum_step_matched_mem _ _ _ _ _ (by decide) hmem hw]
  unfold structColSum getColQ
  rw [zipWith_map_same]
  refine List.map_congr_left fun p hp => ?_
  show structRowSum t.cols p.2 "ios" "install" +
      ((some (0 : ℚ)).getD 0 - colVal t.cols p.2 "ios_installs") =
    structRowSum t.cols p.2 "ios" "install" - colVal t.cols p.2 "ios_installs"
  simp
  ring

theorem derive_derive_android_installs (t : Table)
    (hmem : "android_installs" ∉ t.cols) (hw : WF t) :
    getColQ (derive (derive t)) "android_installs" =
      (getColQ (derive t) "android_installs").map (fun q => q + q) := by
  rw [derive_android_installs_col _ (WF_derive t hw),
    structColSum_derive_android_install t hmem hw, derive_android_installs_col t hw]

theorem derive_derive_ios_installs (t : Table)
    (hfresh : "ios_installs" ∉ t.cols) (hw : WF t) :
    getColQ (derive (derive t)) "ios_installs" = getColQ (derive t) "ios_installs" := by
  rw [derive_ios_installs_col_mem _ (ios_installs_mem_derive t) (WF_derive t hw),
    structColSum_derive_ios_install t hfresh hw, derive_ios_installs_col t hfresh hw]
  exact zipWith_sub_double _

/-! ### The outer merge, sort and zero-fill (lines 87-92) -/

theorem keys_merge2 (t1 t2 : Table) :
    keys (merge2 t1 t2) =
      keys t1 ++ (t2.rows.filter (fun q => decide (q.1 ∉ keys t1))).map Prod.fst := by
  unfold merge2 keys
  rw [List.map_append, List.map_map, List.map_map]
  rfl

theorem mem_filtered_keys (t1 t2 : Table) (d : ℕ) :
    d ∈ (t2.rows.filter (fun q => decide (q.1 ∉ keys t1))).map Prod.fst ↔
      d ∈ keys t2 ∧ d ∉ keys t1 := by
  constructor
  · intro h
    obtain ⟨q, hq, rfl⟩ := List.mem_map.mp h
    have := List.mem_filter.mp hq
    refine ⟨List.mem_map.mpr ⟨q, this.1, rfl⟩, ?_⟩
    exact of_decide_eq_true this.2
  · rintro ⟨h2, h1⟩
    obtain ⟨q, hq, rfl⟩ := List.mem_map.mp h2
    exact List.mem_map.mpr ⟨q, List.mem_filter.mpr ⟨hq, decide_eq_true h1⟩, rfl⟩

theorem mem_keys_merge2 (t1 t2 : Table) (d : ℕ) :
    d ∈ keys (merge2 t1 t2) ↔ d ∈ keys t1 ∨ d ∈ keys t2 := by
  rw [keys_merge2, List.mem_append, mem_filtered_keys]
  by_cases h : d ∈ keys t1 <;> simp [h]

theorem nodup_keys_merge2 {t1 t2 : Table} (h1 : (keys t1).Nodup)
    (h2 : (keys t2).Nodup) : (keys (merge2 t1 t2)).Nodup := by
  rw [keys_merge2]
  refine List.Nodup.append h1 ?_ ?_
  · have hsub : List.Sublist ((t2.rows.filter (fun q => decide (q.1 ∉ keys t1))).map Prod.fst)
        (t2.rows.map Prod.fst) := (List.filter_sublist _).map _
    exact h2.sublist hsub
  · intro d hd1 hd2
    exact (mem_filtered_keys t1 t2 d).mp hd2 |>.2 hd1

theorem length_lookupCells (t : Table) (d : ℕ) (hw : WF t) :
    (lookupCells t d).length = t.cols.length := by
  unfold lookupCells
  cases hfind : t.rows.find? (fun q => decide (q.1 = d)) with
  | none => simp
  | some q => exact hw q (List.mem_of_find?_eq_some hfind)

theorem lookupCells_of_not_mem (t : Table) (d : ℕ) (h : d ∉ keys t) :
    lookupCells t d = List.replicate t.cols.length none := by
  unfold lookupCells
  rw [List.find?_eq_none.mpr]
  intro q hq
  simp only [decide_eq_true_eq]
  exact fun he => h (List.mem_map.mpr ⟨q, hq, he⟩)

theorem WF_merge2 {t1 t2 : Table} (hw1 : WF t1) (hw2 : WF t2) : WF (merge2 t1 t2) := by
  intro p hp
  unfold merge2 at hp
  simp only [List.mem_append, List.mem_map, List.mem_filter] at hp
  cases hp with
  | inl h =>
    obtain ⟨q, hq, rfl⟩ := h
    simp [hw1 q hq, length_lookupCells t2 q.1 hw2, merge2]
  | inr h =>
    obtain ⟨q, hq, rfl⟩ := h
    simp [hw2 q hq.1, merge2, Nat.add_comm]

theorem merge2_row_cases {t1 t2 : Table} {p : ℕ × List (Option ℚ)}
    (hp : p ∈ (merge2 t1 t2).rows) :
    (∃ q ∈ t1.rows, p = (q.1, q.2 ++ lookupCells t2 q.1)) ∨
      (∃ q ∈ t2.rows, q.1 ∉ keys t1 ∧
        p = (q.1, List.replicate t1.cols.length none ++ q.2)) := by
  unfold merge2 at hp
  simp only [List.mem_append, List.mem_map, List.mem_filter] at hp
  cases hp with
  | inl h =>
    obtain ⟨q, hq, he⟩ := h
    exact Or.inl ⟨q, hq, he.symm⟩
  | inr h =>
    obtain ⟨q, hq, he⟩ := h
    exact Or.inr ⟨q, hq.1, of_decide_eq_true hq.2, he.symm⟩


theorem rows_sortRows_perm (t : Table) : (sortRows t).rows.Perm t.rows :=
  List.perm_insertionSort _ _

theorem keys_sortRows_perm (t : Table) : (keys (sortRows t)).Perm (keys t) :=
  (rows_sortRows_perm t).map Prod.fst

theorem sorted_keys_sortRows (t : Table) : List.Sorted (· ≤ ·) (keys (sortRows t)) := by
  have h := List.sorted_insertionSort (fun p q : ℕ × List (Option ℚ) => p.1 ≤ q.1) t.rows
  exact List.Pairwise.map Prod.fst (fun a b hab => hab) h

theorem WF_sortRows {t : Table} (hw : WF t) : WF (sortRows t) := by
  intro p hp
  exact hw p ((rows_sortRows_perm t).mem_iff.mp hp)

theorem keys_fillTable (t : Table) : keys (fillTable t) = keys t := by
  unfold fillTable keys
  rw [List.map_map]
  rfl

theorem WF_fillTable {t : Table} (hw : WF t) : WF (fillTable t) := by
  intro p hp
  unfold fillTable at hp
  obtain ⟨q, hq, rfl⟩ := List.mem_map.mp hp
  simp [hw q hq, fillTable]

theorem fillTable_row_cases {t : Table} {p : ℕ × List (Option ℚ)}
    (hp : p ∈ (fillTable t).rows) :
    ∃ q ∈ t.rows, p = (q.1, q.2.map (fun c => some (c.getD 0))) := by
  unfold fillTable at hp
  obtain ⟨q, hq, he⟩ := List.mem_map.mp hp
  exact ⟨q, hq, he.symm⟩

theorem keys_combine3 (ios android spend : Table) :
    (keys (combine3 ios android spend)).Perm (keys (merge2 (merge2 ios android) spend)) := by
  unfold combine3
  rw [keys_fillTable]
  exact keys_sortRows_perm _

theorem mem_keys_combine3 (ios android spend : Table) (d : ℕ) :
    d ∈ keys (combine3 ios android spend) ↔
      d ∈ keys ios ∨ d ∈ keys android ∨ d ∈ keys spend := by
  rw [(keys_combine3 ios android spend).mem_iff, mem_keys_merge2, mem_keys_merge2, or_assoc]

theorem nodup_keys_combine3 {ios android spend : Table} (h1 : (keys ios).Nodup)
    (h2 : (keys android).Nodup) (h3 : (keys spend).Nodup) :
    (keys (combine3 ios android spend)).Nodup := by
  rw [(keys_combine3 ios android spend).nodup_iff]
  exact nodup_keys_merge2 (nodup_keys_merge2 h1 h2) h3

theorem sorted_keys_combine3 (ios android spend : Table) :
    List.Sorted (· ≤ ·) (keys (combine3 ios android spend)) := by
  unfold combine3
  rw [keys_fillTable]
  exact sorted_keys_sortRows _

theorem combine3_row_fill (ios android spend : Table) (hwi : WF ios) (hwa : WF android)
    {p : ℕ × List (Option ℚ)} (hp : p ∈ (combine3 ios android spend).rows) :
    (p.1 ∉ keys ios →
      p.2.take ios.cols.length = List.replicate ios.cols.length (some (0 : ℚ))) ∧
    (p.1 ∉ keys android →
      (p.2.drop ios.cols.length).take android.cols.length =
        List.replicate android.cols.length (some (0 : ℚ))) ∧
    (p.1 ∉ keys spend →
      p.2.drop (ios.cols.length + android.cols.length) =
        List.replicate spend.cols.length (some (0 : ℚ))) := by
  unfold combine3 at hp
  obtain ⟨q, hq, rfl⟩ := fillTable_row_cases hp
  have hq3 : q ∈ (merge2 (merge2 ios android) spend).rows :=
    (rows_sortRows_perm _).mem_iff.mp hq
  have hmapRep : ∀ n : ℕ, List.map (fun c => some (c.getD (0 : ℚ)))
      (List.replicate n (none : Option ℚ)) = List.replicate n (some (0 : ℚ)) := by
    intro n
    rw [List.map_replicate]
    rfl
  rcases merge2_row_cases hq3 with ⟨q12, hq12, he⟩ | ⟨qs, hqs, hnotS, he⟩
  · subst he
    rcases merge2_row_cases hq12 with ⟨qi, hqi, he2⟩ | ⟨qa, hqa, hnotA, he2⟩
    · subst he2
      dsimp only
      have hlen_i : (List.map (fun c => some (c.getD (0 : ℚ))) qi.2).length =
          ios.cols.length := by rw [List.length_map, hwi qi hqi]
      refine ⟨?_, ?_, ?_⟩
      · intro h
        exact absurd (List.mem_map.mpr ⟨qi, hqi, rfl⟩) h
      · intro h
        rw [lookupCells_of_not_mem android qi.1 h, List.map_append, List.map_append,
          List.append_assoc, List.drop_left' hlen_i,
          List.take_left' (by rw [List.length_map, List.length_replicate]), hmapRep]
      · intro h
        rw [lookupCells_of_not_mem spend qi.1 h, List.map_append,
          List.drop_left' (by
            rw [List.length_map, List.length_append, hwi qi hqi,
              length_lookupCells android qi.1 hwa]), hmapRep]
    · subst he2
      dsimp only
      refine ⟨?_, ?_, ?_⟩
      · intro h
        rw [List.map_append, List.map_append, List.append_assoc,
          List.take_left' (by rw [List.length_map, List.length_replicate]), hmapRep]
      · intro h
        exact absurd (List.mem_map.mpr ⟨qa, hqa, rfl⟩) h
      · intro h
        rw [lookupCells_of_not_mem spend qa.1 h, List.map_append,
          List.drop_left' (by
            rw [List.length_map, List.length_append, List.length_replicate, hwa qa hqa]),
          hmapRep]
  · subst he
    dsimp only
    have hsplit : List.replicate (merge2 ios android).cols.length (none : Option ℚ) =
        List.replicate ios.cols.length (none : Option ℚ) ++
          List.replicate android.cols.length (none : Option ℚ) := by
      have hc12 : (merge2 ios android).cols.length =
          ios.cols.length + android.cols.length := List.length_append _ _
      rw [hc12, List.replicate_add]
    refine ⟨?_, ?_, ?_⟩
    · intro h
      rw [hsplit, List.append_assoc, List.map_append,
        List.take_left' (by rw [List.length_map, List.length_replicate]), hmapRep]
    · intro h
      rw [hsplit, List.append_assoc, List.map_append,
        List.drop_left' (by rw [List.length_map, List.length_replicate]), List.map_append,
        List.take_left' (by rw [List.length_map, List.length_replicate]), hmapRep]
    · intro h
      exact absurd (List.mem_map.mpr ⟨qs, hqs, rfl⟩) h

/-! ### Extremal-day selection (lines 261-283) -/

theorem idxmin?_eq_none_iff (l : List (Option ℚ)) :
    idxmin? l = none ↔ ∀ c ∈ l, c = none := by
  induction l with
  | nil => simp [idxmin?]
  | cons c rest ih =>
    cases c with
    | none =>
      show (idxmin? rest).map (fun x => (x.1 + 1, x.2)) = none ↔ _
      rw [Option.map_eq_none']
      constructor
      · intro h x hx
        cases List.mem_cons.mp hx with
        | inl he => exact he
        | inr hm => exact (ih.mp h) x hm
      · intro h
        exact ih.mpr fun x hx => h x (List.mem_cons_of_mem _ hx)
    | some v =>
      constructor
      · intro h
        exfalso
        revert h
        show (match idxmin? rest with
          | none => some (0, v)
          | some (j, w) => if w < v then some (j + 1, w) else some (0, v)) = none → False
        cases idxmin? rest with
        | none => simp
        | some x =>
          by_cases hlt : x.2 < v <;> simp [hlt]
      · intro h
        exact absurd (h (some v) (List.mem_cons_self _ _)) (by simp)

theorem idxmin?_spec (l : List (Option ℚ)) (j : ℕ) (w : ℚ)
    (h : idxmin? l = some (j, w)) :
    l.get? j = some (some w) ∧ (∀ i v, l.get? i = some (some v) → w ≤ v) ∧
      (∀ i v, i < j → l.get? i = some (some v) → w < v) := by
  induction l generalizing j w with
  | nil => cases h
  | cons c rest ih =>
    cases c with
    | none =>
      replace h : (idxmin? rest).map (fun x => (x.1 + 1, x.2)) = some (j, w) := h
      cases hbase : idxmin? rest with
      | none => rw [hbase] at h; cases h
      | some x =>
        rw [hbase] at h
        simp only [Option.map_some', Option.some_inj] at h
        have hj : x.1 + 1 = j := congrArg Prod.fst h
        have hw : x.2 = w := congrArg Prod.snd h
        subst hj
        subst hw
        obtain ⟨hget, hmin, hfirst⟩ := ih x.1 x.2 hbase
        refine ⟨hget, ?_, ?_⟩
        · intro i v hv
          cases i with
          | zero => simp at hv
          | succ i => exact hmin i v hv
        · intro i v hlt hv
          cases i with
          | zero => simp at hv
          | succ i => exact hfirst i v (Nat.lt_of_succ_lt_succ hlt) hv
    | some v0 =>
      replace h : (match idxmin? rest with
          | none => some (0, v0)
          | some (j, w) => if w < v0 then some (j + 1, w) else some (0, v0)) =
          some (j, w) := h
      cases hbase : idxmin? rest with
      | none =>
        rw [hbase] at h
        have hj : (0 : ℕ) = j := congrArg Prod.fst (Option.some_inj.mp h)
        have hw : v0 = w := congrArg Prod.snd (Option.some_inj.mp h)
        subst hj
        subst hw
        have hall := (idxmin?_eq_none_iff rest).mp hbase
        refine ⟨rfl, ?_, ?_⟩
        · intro i v hv
          cases i with
          | zero =>
            simp only [List.get?_cons_zero, Option.some_inj] at hv
            exact le_of_eq hv
          | succ i =>
            exfalso
            have hv' : rest.get? i = some (some v) := hv
            exact absurd (hall _ (List.get?_mem hv')) (by simp)
        · intro i v hlt hv
          cases hlt
      | some x =>
        rw [hbase] at h
        replace h : (if x.2 < v0 then some (x.1 + 1, x.2) else some (0, v0)) =
            some (j, w) := h
        obtain ⟨hget0, hmin0, hfirst0⟩ := ih x.1 x.2 hbase
        by_cases hlt : x.2 < v0
        · rw [if_pos hlt] at h
          have hj : x.1 + 1 = j := congrArg Prod.fst (Option.some_inj.mp h)
          have hw : x.2 = w := congrArg Prod.snd (Option.some_inj.mp h)
          subst hj
          subst hw
          refine ⟨hget0, ?_, ?_⟩
          · intro i v hv
            cases i with
            | zero =>
              simp only [List.get?_cons_zero, Option.some_inj] at hv
              exact le_of_lt (hv ▸ hlt)
            | succ i => exact hmin0 i v hv
          · intro i v hilt hv
            cases i with
            | zero =>
              simp only [List.get?_cons_zero, Option.some_inj] at hv
              exact hv ▸ hlt
            | succ i => exact hfirst0 i v (Nat.lt_of_succ_lt_succ hilt) hv
        · rw [if_neg hlt] at h
          have hj : (0 : ℕ) = j := congrArg Prod.fst (Option.some_inj.mp h)
          have hw : v0 = w := congrArg Prod.snd (Option.some_inj.mp h)
          subst hj
          subst hw
          refine ⟨rfl, ?_, ?_⟩
          · intro i v hv
            cases i with
            | zero =>
              simp only [List.get?_cons_zero, Option.some_inj] at hv
              exact le_of_eq hv
            | succ i => exact le_trans (le_of_not_lt hlt) (hmin0 i v hv)
          · intro i v hilt hv
            cases hilt

theorem idxmax?_eq_none_iff (l : List ℚ) : idxmax? l = none ↔ l = [] := by
  cases l with
  | nil => simp [idxmax?]
  | cons v rest =>
    simp only [idxmax?]
    constructor
    · intro h
      exfalso
      revert h
      cases idxmax? rest with
      | none => simp
      | some x =>
        by_cases hlt : v < x.2 <;> simp [hlt]
    · intro h
      cases h

theorem idxmax?_spec (l : List ℚ) (j : ℕ) (w : ℚ) (h : idxmax? l = some (j, w)) :
    l.get? j = some w ∧ (∀ i v, l.get? i = some v → v ≤ w) ∧
      (∀ i v, i < j → l.get? i = some v → v < w) := by
  induction l generalizing j w with
  | nil => cases h
  | cons v0 rest ih =>
    replace h : (match idxmax? rest with
        | none => some (0, v0)
        | some (j, w) => if v0 < w then some (j + 1, w) else some (0, v0)) =
        some (j, w) := h
    cases hbase : idxmax? rest with
    | none =>
      rw [hbase] at h
      have hj : (0 : ℕ) = j := congrArg Prod.fst (Option.some_inj.mp h)
      have hw : v0 = w := congrArg Prod.snd (Option.some_inj.mp h)
      subst hj
      subst hw
      have hnil : rest = [] := (idxmax?_eq_none_iff rest).mp hbase
      subst hnil
      refine ⟨rfl, ?_, ?_⟩
      · intro i v hv
        cases i with
        | zero =>
          simp only [List.get?_cons_zero, Option.some_inj] at hv
          exact le_of_eq (hv.symm)
        | succ i => simp at hv
      · intro i v hlt hv
        cases hlt
    | some x =>
      rw [hbase] at h
      replace h : (if v0 < x.2 then some (x.1 + 1, x.2) else some (0, v0)) =
          some (j, w) := h
      obtain ⟨hget0, hmax0, hfirst0⟩ := ih x.1 x.2 hbase
      by_cases hlt : v0 < x.2
      · rw [if_pos hlt] at h
        have hj : x.1 + 1 = j := congrArg Prod.fst (Option.some_inj.mp h)
        have hw : x.2 = w := congrArg Prod.snd (Option.some_inj.mp h)
        subst hj
        subst hw
        refine ⟨hget0, ?_, ?_⟩
        · intro i v hv
          cases i with
          | zero =>
            simp only [List.get?_cons_zero, Option.some_inj] at hv
            exact le_of_lt (hv ▸ hlt)
          | succ i => exact hmax0 i v hv
        · intro i v hilt hv
          cases i with
          | zero =>
            simp only [List.get?_cons_zero, Option.some_inj] at hv
            exact hv ▸ hlt
          | succ i => exact hfirst0 i v (Nat.lt_of_succ_lt_succ hilt) hv
      · rw [if_neg hlt] at h
        have hj : (0 : ℕ) = j := congrArg Prod.fst (Option.some_inj.mp h)
        have hw : v0 = w := congrArg Prod.snd (Option.some_inj.mp h)
        subst hj
        subst hw
        refine ⟨rfl, ?_, ?_⟩
        · intro i v hv
          cases i with
          | zero =>
            simp only [List.get?_cons_zero, Option.some_inj] at hv
            exact le_of_eq hv.symm
          | succ i => exact le_trans (hmax0 i v hv) (le_of_not_lt hlt)
        · intro i v hilt hv
          cases hilt

/-! ### Date-column detection and spend-column adoption -/

theorem findDateIdx_spec (cols : List String) (i : ℕ) (h : findDateIdx cols = some i) :
    ∃ hi : i < cols.length, hasSub "date" (lowStr (cols.get ⟨i, hi⟩)) = true ∧
      ∀ j (hj : j < i),
        hasSub "date" (lowStr (cols.get ⟨j, Nat.lt_trans hj hi⟩)) = false := by
  unfold findDateIdx at h
  obtain ⟨hi, hp, hprev⟩ := List.findIdx?_eq_some_iff_getElem.mp h
  refine ⟨hi, by simpa [List.get_eq_getElem] using hp, fun j hj => ?_⟩
  have := hprev j hj
  simpa [List.get_eq_getElem] using this

theorem keys_toKeyed (t : RawTable) (i : ℕ) :
    keys (toKeyed t i) = t.rows.filterMap (fun r => parseDate (rcellAt r i)) := by
  unfold toKeyed keys
  rw [List.map_filterMap]
  congr 1
  funext r
  cases parseDate (rcellAt r i) <;> rfl

theorem length_filterMap_countP (t : RawTable) (i : ℕ) :
    (toKeyed t i).rows.length =
      t.rows.countP (fun r => (parseDate (rcellAt r i)).isSome) := by
  unfold toKeyed
  induction t.rows with
  | nil => rfl
  | cons r rest ih =>
    rw [List.filterMap_cons, List.countP_cons]
    cases hpd : parseDate (rcellAt r i) with
    | none => simpa [hpd] using ih
    | some d => simpa [hpd] using ih

theorem pipeline_ok_of_dates (ios android spend : RawTable) {i j k : ℕ}
    (h1 : findDateIdx ios.cols = some i) (h2 : findDateIdx android.cols = some j)
    (h3 : findDateIdx spend.cols = some k) :
    pipeline ios android spend =
      .ok (derive (combine3 (addTag "ios_" (toKeyed ios i))
        (addTag "android_" (toKeyed android j)) (spendAdopt (toKeyed spend k)))) := by
  unfold pipeline
  rw [h1, h2, h3]

theorem pipeline_error_of_no_date (ios android spend : RawTable)
    (h : findDateIdx ios.cols = none ∨ findDateIdx android.cols = none ∨
      findDateIdx spend.cols = none) :
    pipeline ios android spend =
      .error "Couldn't find a Date column in one of the files. Make sure each CSV has a Date column." := by
  unfold pipeline
  rcases h with h | h | h
  · rw [h]
  · rw [h]
    cases findDateIdx ios.cols <;> rfl
  · rw [h]
    cases findDateIdx ios.cols <;> cases findDateIdx android.cols <;> rfl

theorem spendKeyB_spends : spendKeyB "Spends" = true := by decide

theorem colCell_setName (cols : List String) (r : List (Option ℚ)) (i : ℕ) (n : String)
    (hprev : ∀ j c, j < i → cols.get? j = some c → c ≠ n) (hlen : r.length = cols.length)
    (hi : i < cols.length) :
    colCell (cols.set i n) r n = (r.get? i).getD none := by
  induction cols generalizing i r with
  | nil => simp at hi
  | cons c cs ih =>
    cases r with
    | nil => simp at hlen
    | cons x xs =>
      cases i with
      | zero =>
        rw [List.set_cons_zero, colCell_cons, if_pos rfl]
        rfl
      | succ i =>
        have hcn : ¬ c = n := hprev 0 c (Nat.succ_pos i) rfl
        rw [List.set_cons_succ, colCell_cons, if_neg hcn]
        exact ih xs i (fun j d hj hd => hprev (j + 1) d (Nat.succ_lt_succ hj) hd)
          (by simpa using hlen) (by simpa using hi)

theorem spendAdopt_found (t : Table) (i : ℕ) (hw : WF t)
    (h : t.cols.findIdx? spendKeyB = some i) :
    (spendAdopt t).cols = t.cols.set i "Spends" ∧ (spendAdopt t).rows = t.rows ∧
      getColQ (spendAdopt t) "Spends" =
        t.rows.map (fun p => ((p.2.get? i).getD none).getD 0) := by
  unfold spendAdopt
  rw [h]
  obtain ⟨hi, hp, hprev⟩ := List.findIdx?_eq_some_iff_getElem.mp h
  refine ⟨rfl, rfl, ?_⟩
  unfold getColQ
  refine List.map_congr_left fun p hp2 => ?_
  show colVal (t.cols.set i "Spends") p.2 "Spends" = ((p.2.get? i).getD none).getD 0
  rw [colVal_eq_colCell, colCell_setName t.cols p.2 i "Spends" ?hprev (hw p hp2) hi]
  case hprev =>
    intro j c hj hc
    intro he
    have hjlt : j < t.cols.length := Nat.lt_trans hj hi
    have : t.cols[j] = c := by
      have := List.get?_eq_get hjlt
      rw [this] at hc
      exact Option.some_inj.mp hc
    have hfail := hprev j hj
    rw [this, he] at hfail
    exact absurd spendKeyB_spends (by simpa using hfail)

theorem spends_not_mem_of_no_candidate (t : Table)
    (h : t.cols.findIdx? spendKeyB = none) : "Spends" ∉ t.cols := by
  intro hmem
  have hall := List.findIdx?_eq_none_iff.mp h
  exact absurd (hall _ hmem) (by simp [spendKeyB_spends])

theorem spendAdopt_missing (t : Table) (hw : WF t)
    (h : t.cols.findIdx? spendKeyB = none) :
    (spendAdopt t).cols = t.cols ++ ["Spends"] ∧ keys (spendAdopt t) = keys t ∧
      getColQ (spendAdopt t) "Spends" = t.rows.map (fun _ => 0) := by
  unfold spendAdopt
  rw [h]
  refine ⟨rfl, ?_, ?_⟩
  · unfold keys
    rw [List.map_map]
    rfl
  · unfold getColQ
    rw [List.map_map]
    refine List.map_congr_left fun p hp => ?_
    show colVal (t.cols ++ ["Spends"]) (p.2 ++ [some 0]) "Spends" = 0
    rw [colVal_eq_colCell,
      colCell_append_self _ _ _ _ (spends_not_mem_of_no_candidate t h) (hw p hp)]
    rfl

/-! ### Non-numeric spend cells coerce to zero (lines 119-121 with line 92) -/


theorem forall₂_map_same {α β γ : Type} {R : β → γ → Prop} (f : α → β) (g : α → γ)
    (l : List α) (h : ∀ x ∈ l, R (f x) (g x)) : List.Forall₂ R (l.map f) (l.map g) := by
  induction l with
  | nil => exact List.Forall₂.nil
  | cons a l ih =>
    exact List.Forall₂.cons (h a (List.mem_cons_self a l))
      (ih fun x hx => h x (List.mem_cons_of_mem a hx))

theorem forall₂_map_both {α β γ δ : Type} {R : α → β → Prop} {S : γ → δ → Prop}
    {f : α → γ} {g : β → δ} {l : List α} {l' : List β} (h : List.Forall₂ R l l')
    (hfg : ∀ a b, R a b → S (f a) (g b)) : List.Forall₂ S (l.map f) (l'.map g) := by
  induction h with
  | nil => exact List.Forall₂.nil
  | cons hab _ ih => exact List.Forall₂.cons (hfg _ _ hab) ih

theorem forall₂_filter {α β : Type} {R : α → β → Prop} {p : α → Bool} {q : β → Bool}
    {l : List α} {l' : List β} (h : List.Forall₂ R l l')
    (hpq : ∀ a b, R a b → p a = q b) : List.Forall₂ R (l.filter p) (l'.filter q) := by
  induction h with
  | nil => exact List.Forall₂.nil
  | cons hab htail ih =>
    rename_i a b l l'
    rw [List.filter_cons, List.filter_cons]
    cases hc : p a with
    | true =>
      rw [← hpq a b hab, hc]
      exact List.Forall₂.cons hab ih
    | false =>
      rw [← hpq a b hab, hc]
      exact ih

theorem forall₂_keys_eq {l l' : List (ℕ × List (Option ℚ))}
    (h : List.Forall₂ rowRel l l') : l.map Prod.fst = l'.map Prod.fst := by
  induction h with
  | nil => rfl
  | cons hab _ ih =>
    simp only [List.map_cons, ih]
    rw [hab.1]

theorem forall₂_cellRel_refl (l : List (Option ℚ)) : List.Forall₂ cellRel l l :=
  (List.forall₂_same).mpr fun _ _ => rfl

theorem find?_date_rel {l l' : List (ℕ × List (Option ℚ))}
    (h : List.Forall₂ rowRel l l') (d : ℕ) :
    (l.find? (fun q => decide (q.1 = d)) = none ∧
      l'.find? (fun q => decide (q.1 = d)) = none) ∨
    (∃ a b, l.find? (fun q => decide (q.1 = d)) = some a ∧
      l'.find? (fun q => decide (q.1 = d)) = some b ∧ rowRel a b) := by
  induction h with
  | nil => exact Or.inl ⟨rfl, rfl⟩
  | cons hab htail ih =>
    rename_i a b l l'
    rw [List.find?_cons, List.find?_cons]
    cases hd : decide (a.1 = d) with
    | true =>
      have hd' : decide (b.1 = d) = true := by rw [← hab.1]; exact hd
      rw [hd']
      exact Or.inr ⟨a, b, rfl, rfl, hab⟩
    | false =>
      have hd' : decide (b.1 = d) = false := by rw [← hab.1]; exact hd
      rw [hd']
      exact ih

theorem lookupCells_rel {t2 t2' : Table} (h : tableRel t2 t2') (d : ℕ) :
    List.Forall₂ cellRel (lookupCells t2 d) (lookupCells t2' d) := by
  obtain ⟨hcols, hrows⟩ := h
  unfold lookupCells
  rcases find?_date_rel hrows d with ⟨hn, hn'⟩ | ⟨a, b, ha, hb, hab⟩
  · rw [hn, hn', hcols]
    exact forall₂_cellRel_refl _
  · rw [ha, hb]
    exact hab.2

theorem merge2_rel {t1 t2 t2' : Table} (h : tableRel t2 t2') :
    tableRel (merge2 t1 t2) (merge2 t1 t2') := by
  obtain ⟨hcols, hrows⟩ := h
  constructor
  · show t1.cols ++ t2.cols = t1.cols ++ t2'.cols
    rw [hcols]
  · show List.Forall₂ rowRel
      (t1.rows.map (fun p => (p.1, p.2 ++ lookupCells t2 p.1)) ++ _)
      (t1.rows.map (fun p => (p.1, p.2 ++ lookupCells t2' p.1)) ++ _)
    refine List.rel_append ?_ ?_
    · refine forall₂_map_same _ _ _ fun p _ => ?_
      refine ⟨rfl, ?_⟩
      show List.Forall₂ cellRel (p.2 ++ lookupCells t2 p.1) (p.2 ++ lookupCells t2' p.1)
      exact List.rel_append (forall₂_cellRel_refl p.2)
        (lookupCells_rel ⟨hcols, hrows⟩ p.1)
    · refine forall₂_map_both (forall₂_filter hrows ?_) ?_
      · intro a b hab
        rw [hab.1]
      · intro a b hab
        refine ⟨hab.1, ?_⟩
        show List.Forall₂ cellRel (List.replicate t1.cols.length none ++ a.2)
          (List.replicate t1.cols.length none ++ b.2)
        exact List.rel_append (forall₂_cellRel_refl _) hab.2

theorem orderedInsert_rel {a b : ℕ × List (Option ℚ)}
    {l l' : List (ℕ × List (Option ℚ))} (hab : rowRel a b)
    (h : List.Forall₂ rowRel l l') :
    List.Forall₂ rowRel
      (List.orderedInsert (fun p q => p.1 ≤ q.1) a l)
      (List.orderedInsert (fun p q => p.1 ≤ q.1) b l') := by
  induction h with
  | nil => exact List.Forall₂.cons hab List.Forall₂.nil
  | cons hxy htail ih =>
    rename_i x y l l'
    show List.Forall₂ rowRel
      (if a.1 ≤ x.1 then a :: x :: _ else x :: List.orderedInsert _ a _)
      (if b.1 ≤ y.1 then b :: y :: _ else y :: List.orderedInsert _ b _)
    by_cases hle : a.1 ≤ x.1
    · rw [if_pos hle, if_pos (by rw [← hab.1, ← hxy.1]; exact hle)]
      exact List.Forall₂.cons hab (List.Forall₂.cons hxy htail)
    · rw [if_neg hle, if_neg (by rw [← hab.1, ← hxy.1]; exact hle)]
      exact List.Forall₂.cons hxy ih

theorem insertionSort_rel {l l' : List (ℕ × List (Option ℚ))}
    (h : List.Forall₂ rowRel l l') :
    List.Forall₂ rowRel
      (List.insertionSort (fun p q => p.1 ≤ q.1) l)
      (List.insertionSort (fun p q => p.1 ≤ q.1) l') := by
  induction h with
  | nil => exact List.Forall₂.nil
  | cons hab htail ih => exact orderedInsert_rel hab ih

theorem sortRows_rel {t t' : Table} (h : tableRel t t') :
    tableRel (sortRows t) (sortRows t') :=
  ⟨h.1, insertionSort_rel h.2⟩

theorem fillCells_eq_of_rel {r r' : List (Option ℚ)} (h : List.Forall₂ cellRel r r') :
    r.map (fun c => some (c.getD 0)) = r'.map (fun c => some (c.getD 0)) := by
  induction h with
  | nil => rfl
  | cons hcd _ ih =>
    simp only [List.map_cons, ih, List.cons.injEq, and_true]
    rw [hcd]

theorem fillRows_eq_of_rel {l l' : List (ℕ × List (Option ℚ))}
    (h : List.Forall₂ rowRel l l') :
    l.map (fun p => (p.1, p.2.map (fun c => some (c.getD 0)))) =
      l'.map (fun p => (p.1, p.2.map (fun c => some (c.getD 0)))) := by
  induction h with
  | nil => rfl
  | cons hab _ ih =>
    simp only [List.map_cons, ih, List.cons.injEq, and_true]
    rw [Prod.ext_iff]
    exact ⟨hab.1, fillCells_eq_of_rel hab.2⟩

theorem fillTable_eq_of_rel {t t' : Table} (h : tableRel t t') :
    fillTable t = fillTable t' := by
  unfold fillTable
  rw [Table.mk.injEq]
  exact ⟨h.1, fillRows_eq_of_rel h.2⟩

theorem spendAdopt_rel {t t' : Table} (h : tableRel t t') :
    tableRel (spendAdopt t) (spendAdopt t') := by
  obtain ⟨hcols, hrows⟩ := h
  unfold spendAdopt
  rw [← hcols]
  cases hfind : t.cols.findIdx? spendKeyB with
  | some i => exact ⟨by rw [hcols], hrows⟩
  | none =>
    refine ⟨by rw [hcols], ?_⟩
    refine forall₂_map_both hrows ?_
    intro a b hab
    refine ⟨hab.1, ?_⟩
    show List.Forall₂ cellRel (a.2 ++ [some 0]) (b.2 ++ [some 0])
    exact List.rel_append hab.2 (forall₂_cellRel_refl _)

theorem eraseIdx_map {α β : Type} (f : α → β) (l : List α) (i : ℕ) :
    (l.map f).eraseIdx i = (l.eraseIdx i).map f := by
  induction l generalizing i with
  | nil => rfl
  | cons a l ih =>
    cases i with
    | zero => rfl
    | succ i =>
      simp only [List.map_cons, List.eraseIdx_cons_succ, ih]

theorem parseDate_badToZero (c : RCell) :
    parseDate (if c = RCell.bad then RCell.num 0 else c) = parseDate c := by
  cases c <;> simp [parseDate]

theorem cellVal_badToZero_rel (c : RCell) :
    cellRel (cellVal (if c = RCell.bad then RCell.num 0 else c)) (cellVal c) := by
  cases c <;> simp [cellVal, cellRel]

theorem toKeyed_badToZero_rel (t : RawTable) (i : ℕ) :
    tableRel (toKeyed (badToZero t) i) (toKeyed t i) := by
  refine ⟨rfl, ?_⟩
  show List.Forall₂ rowRel ((t.rows.map (fun r => r.map (fun c =>
      if c = RCell.bad then RCell.num 0 else c))).filterMap _) (t.rows.filterMap _)
  induction t.rows with
  | nil => exact List.Forall₂.nil
  | cons r rest ih =>
    rw [List.map_cons, List.filterMap_cons, List.filterMap_cons]
    have hpd : parseDate (rcellAt (r.map (fun c =>
        if c = RCell.bad then RCell.num 0 else c)) i) = parseDate (rcellAt r i) := by
      unfold rcellAt
      cases hc : r.get? i with
      | none =>
        have hc2 : (r.map (fun c => if c = RCell.bad then RCell.num 0 else c)).get? i = none := by
          rw [List.get?_eq_getElem?, List.getElem?_map, ← List.get?_eq_getElem?, hc]
          rfl
        rw [hc2]
      | some c =>
        have hc2 : (r.map (fun c => if c = RCell.bad then RCell.num 0 else c)).get? i =
            some (if c = RCell.bad then RCell.num 0 else c) := by
          rw [List.get?_eq_getElem?, List.getElem?_map, ← List.get?_eq_getElem?, hc]
          rfl
        rw [hc2]
        simp only [Option.getD_some]
        exact parseDate_badToZero c
    rw [hpd]
    cases hparse : parseDate (rcellAt r i) with
    | none => exact ih
    | some d =>
      simp only [Option.map_some']
      refine List.Forall₂.cons ⟨rfl, ?_⟩ ih
      show List.Forall₂ cellRel
        (((r.map (fun c => if c = RCell.bad then RCell.num 0 else c)).eraseIdx i).map cellVal)
        ((r.eraseIdx i).map cellVal)
      rw [eraseIdx_map]
      rw [List.map_map]
      exact forall₂_map_same _ _ _ fun c _ => cellVal_badToZero_rel c

theorem pipeline_badToZero (ios android spend : RawTable) :
    pipeline ios android (badToZero spend) = pipeline ios android spend := by
  unfold pipeline
  have hcols : (badToZero spend).cols = spend.cols := rfl
  rw [hcols]
  cases h1 : findDateIdx ios.cols with
  | none => rfl
  | some i =>
    cases h2 : findDateIdx android.cols with
    | none => rfl
    | some j =>
      cases h3 : findDateIdx spend.cols with
      | none => rfl
      | some k =>
        have hrel : tableRel (spendAdopt (toKeyed (badToZero spend) k))
            (spendAdopt (toKeyed spend k)) :=
          spendAdopt_rel (toKeyed_badToZero_rel spend k)
        have hcomb : combine3 (addTag "ios_" (toKeyed ios i))
            (addTag "android_" (toKeyed android j)) (spendAdopt (toKeyed (badToZero spend) k)) =
            combine3 (addTag "ios_" (toKeyed ios i)) (addTag "android_" (toKeyed android j))
              (spendAdopt (toKeyed spend k)) := by
          unfold combine3
          exact fillTable_eq_of_rel (sortRows_rel (merge2_rel hrel))
        dsimp only
        rw [hcomb]

/-! ### Small positional helpers -/

theorem get?_zipWith {α β γ : Type} (f : α → β → γ) (l1 : List α) (l2 : List β)
    (i : ℕ) (a : α) (b : β) (h1 : l1.get? i = some a) (h2 : l2.get? i = some b) :
    (List.zipWith f l1 l2).get? i = some (f a b) := by
  induction l1 generalizing l2 i with
  | nil => cases h1
  | cons x xs ih =>
    cases l2 with
    | nil => cases h2
    | cons y ys =>
      cases i with
      | zero =>
        simp only [List.get?_cons_zero, Option.some_inj] at h1 h2
        rw [List.zipWith_cons_cons, List.get?_cons_zero, h1, h2]
      | succ i =>
        rw [List.zipWith_cons_cons, List.get?_cons_succ]
        exact ih ys i h1 h2

theorem get?_some_of_length {α β : Type} (l1 : List α) (l2 : List β)
    (h : l2.length = l1.length) {i : ℕ} {a : α} (h1 : l1.get? i = some a) :
    ∃ b, l2.get? i = some b := by
  have hi : i < l1.length := by
    cases List.get?_eq_some.mp h1 with
    | intro hlt _ => exact hlt
  exact ⟨l2.get ⟨i, h ▸ hi⟩, List.get?_eq_get (h ▸ hi)⟩

theorem length_getColQ (t : Table) (n : String) : (getColQ t n).length = t.rows.length :=
  List.length_map _ _

theorem length_getColO (t : Table) (n : String) : (getColO t n).length = t.rows.length :=
  List.length_map _ _

theorem length_structColSum (t : Table) (tag mid : String) :
    (structColSum t tag mid).length = t.rows.length :=
  List.length_map _ _

theorem rows_length_derive (t : Table) : (derive t).rows.length = t.rows.length := by
  have h := congrArg List.length (keys_derive t)
  simpa [keys] using h

theorem nthKey_mono (t : Table) (hs : List.Sorted (· ≤ ·) (keys t)) {i j : ℕ}
    (hij : i ≤ j) (hj : j < (keys t).length) : nthKey t i ≤ nthKey t j := by
  rcases Nat.eq_or_lt_of_le hij with rfl | hlt
  · exact le_refl _
  · have hi : i < (keys t).length := Nat.lt_trans hlt hj
    unfold nthKey
    rw [List.get?_eq_get hi, List.get?_eq_get hj]
    exact List.Sorted.rel_get_of_lt hs hlt

/-! ### Claim theorems -/

theorem structRowSum_nil (r : List (Option ℚ)) (tag mid : String) :
    structRowSum [] r tag mid = 0 := rfl

/-- **C1.** After namespacing and the outer merge (lines 87-92 of
`streamlit_app.py`), the combined table's set of date keys is exactly the
union of the date keys of the iOS, Android and Spend inputs, with exactly one
row per date key, rows sorted ascending by date key, and every cell segment
that has no contributing source row for its date filled with zero (the
`some 0` cells produced by `fillna(0)` from the merge's NaN padding).  Stated
for well-formed inputs: each row matches its column list and each input's
keys are duplicate-free. -/
theorem c1_outer_merge_spec (ios android spend : Table) (hwi : WF ios) (hwa : WF android)
    (h1 : (keys ios).Nodup) (h2 : (keys android).Nodup) (h3 : (keys spend).Nodup) :
    (∀ d, d ∈ keys (combine3 ios android spend) ↔
      d ∈ keys ios ∨ d ∈ keys android ∨ d ∈ keys spend) ∧
    (keys (combine3 ios android spend)).Nodup ∧
    List.Sorted (· ≤ ·) (keys (combine3 ios android spend)) ∧
    (∀ p ∈ (combine3 ios android spend).rows,
      (p.1 ∉ keys ios →
        p.2.take ios.cols.length = List.replicate ios.cols.length (some (0 : ℚ))) ∧
      (p.1 ∉ keys android →
        (p.2.drop ios.cols.length).take android.cols.length =
          List.replicate android.cols.length (some (0 : ℚ))) ∧
      (p.1 ∉ keys spend →
        p.2.drop (ios.cols.length + android.cols.length) =
          List.replicate spend.cols.length (some (0 : ℚ)))) :=
  ⟨mem_keys_combine3 ios android spend, nodup_keys_combine3 h1 h2 h3,
    sorted_keys_combine3 ios android spend,
    fun _ hp => combine3_row_fill ios android spend hwi hwa hp⟩

theorem c1_outer_merge_spec_witness :
    (2 : ℕ) ∈ keys (combine3 (⟨["Installs"], [(1, [some 5])]⟩ : Table)
      (⟨["Installs"], [(2, [some 7])]⟩ : Table) (⟨["Spends"], [(1, [some 3])]⟩ : Table)) ∧
    (keys (combine3 (⟨["Installs"], [(1, [some 5])]⟩ : Table)
      (⟨["Installs"], [(2, [some 7])]⟩ : Table)
      (⟨["Spends"], [(1, [some 3])]⟩ : Table))).Nodup := by
  have h := c1_outer_merge_spec ⟨["Installs"], [(1, [some 5])]⟩ ⟨["Installs"], [(2, [some 7])]⟩
    ⟨["Spends"], [(1, [some 3])]⟩
    (by intro p hp; rcases List.mem_singleton.mp hp with rfl; rfl)
    (by intro p hp; rcases List.mem_singleton.mp hp with rfl; rfl)
    (by decide) (by decide) (by decide)
  exact ⟨(h.1 2).mpr (Or.inr (Or.inl (by decide))), h.2.1⟩

/-- **C2 (amended).** The metric-derivation step is not idempotent.
Re-applying lines 102-137 to an already-derived table preserves
`ios_installs` — the line-102 placeholder (`* 0`) resets that column to zero
before line 104 re-sums it — but doubles `android_installs`: the derived
column's own name matches the `startswith('android') and 'install' in ...`
structural pattern of line 105, so the second pass adds the derived column to
the source columns it already summed.  Stated for tables that do not yet
carry the derived column names. -/
theorem c2_derivation_not_idempotent (t : Table) (hfI : "ios_installs" ∉ t.cols)
    (hfA : "android_installs" ∉ t.cols) (hw : WF t) :
    getColQ (derive (derive t)) "ios_installs" = getColQ (derive t) "ios_installs" ∧
    getColQ (derive (derive t)) "android_installs" =
      (getColQ (derive t) "android_installs").map (fun q => q + q) :=
  ⟨derive_derive_ios_installs t hfI hw, derive_derive_android_installs t hfA hw⟩

theorem c2_derivation_not_idempotent_witness :
    getColQ (derive (derive (⟨["android_Installs"], [(0, [some 1])]⟩ : Table)))
        "android_installs" =
      (getColQ (derive (⟨["android_Installs"], [(0, [some 1])]⟩ : Table))
        "android_installs").map (fun q => q + q) :=
  (c2_derivation_not_idempotent ⟨["android_Installs"], [(0, [some 1])]⟩ (by decide) (by decide)
    (by intro p hp; rcases List.mem_singleton.mp hp with rfl; rfl)).2

/-- **C2 (counterexample).** Applying the derivation twice to the combined
table with the single source column `android_Installs` (value 1 on its one
row) yields `android_installs = 2` instead of 1: the derivation is not
idempotent as claimed. -/
theorem c2_idempotence_counterexample :
    getColQ (derive (derive (⟨["android_Installs"], [(0, [some 1])]⟩ : Table)))
        "android_installs" ≠
      getColQ (derive (⟨["android_Installs"], [(0, [some 1])]⟩ : Table))
        "android_installs" := by
  have hw : WF (⟨["android_Installs"], [(0, [some 1])]⟩ : Table) := by
    intro p hp
    rcases List.mem_singleton.mp hp with rfl
    rfl
  rw [derive_derive_android_installs _ (by decide) hw, derive_android_installs_col _ hw]
  have hm : matchesB "android" "install" "android_Installs" = true := by decide
  have hrow : structRowSum ["android_Installs"] [some 1] "android" "install" = 1 := by
    rw [structRowSum_cons, hm, structRowSum_nil]
    simp
  have hs : structColSum (⟨["android_Installs"], [(0, [some 1])]⟩ : Table)
      "android" "install" = [1] := by
    show [structRowSum ["android_Installs"] [some 1] "android" "install"] = [1]
    rw [hrow]
  rw [hs]
  intro hcontra
  simp only [List.map_cons, List.map_nil, List.cons.injEq, and_true] at hcontra
  norm_num at hcontra

/-- **C3.** In the derived table, each conversion column is exactly the
guarded ratio of the derived totals of the same table: `install_to_kyc` is
`total_kyc / total_installs * 100` when `total_installs > 0` and `0`
otherwise, `install_to_otp` likewise with `total_otp`, and `kyc_to_otp` is
`total_otp / total_kyc * 100` when `total_kyc > 0` and `0` otherwise
(lines 124-132).  Division is total in the model, and the source guards each
division with `np.where`, so no division-by-zero error can arise. -/
theorem c3_ratio_guards (t : Table) (hw : WF t) :
    getColQ (derive t) "install_to_kyc" =
      List.zipWith (fun k i => if 0 < i then k / i * 100 else 0)
        (getColQ (derive t) "total_kyc") (getColQ (derive t) "total_installs") ∧
    getColQ (derive t) "install_to_otp" =
      List.zipWith (fun o i => if 0 < i then o / i * 100 else 0)
        (getColQ (derive t) "total_otp") (getColQ (derive t) "total_installs") ∧
    getColQ (derive t) "kyc_to_otp" =
      List.zipWith (fun o k => if 0 < k then o / k * 100 else 0)
        (getColQ (derive t) "total_otp") (getColQ (derive t) "total_kyc") :=
  ⟨derive_install_to_kyc_col t hw, derive_install_to_otp_col t hw,
    derive_kyc_to_otp_col t hw⟩

theorem c3_ratio_guards_witness :
    getColQ (derive (⟨["ios_Installs", "ios_KYC"], [(1, [some 4, some 1])]⟩ : Table))
        "install_to_kyc" =
      List.zipWith (fun k i => if 0 < i then k / i * 100 else 0)
        (getColQ (derive (⟨["ios_Installs", "ios_KYC"], [(1, [some 4, some 1])]⟩ : Table))
          "total_kyc")
        (getColQ (derive (⟨["ios_Installs", "ios_KYC"], [(1, [some 4, some 1])]⟩ : Table))
          "total_installs") :=
  (c3_ratio_guards ⟨["ios_Installs", "ios_KYC"], [(1, [some 4, some 1])]⟩
    (by intro p hp; rcases List.mem_singleton.mp hp with rfl; rfl)).1

/-- **C4.** In the derived table, `cpi` is `Spends / total_installs` exactly
on the rows with `total_installs > 0` and is absent (`none`, pandas NaN, in
particular never the number zero) on the others (lines 135-137); a
zero-install row never contributes a CPI value to the best-CPI selection
(line 263 works on `dropna()`); and the row itself survives derivation with
its date and its spend value intact. -/
theorem c4_cpi_undefined_policy (t : Table) (hw : WF t) :
    getColO (derive t) "cpi" =
      List.zipWith (fun s i => if 0 < i then some (s / i) else none)
        (getColQ (derive t) "Spends") (getColQ (derive t) "total_installs") ∧
    (∀ i, (getColQ (derive t) "total_installs").get? i = some 0 →
      (getColO (derive t) "cpi").get? i = some none) ∧
    (∀ i, (getColQ (derive t) "total_installs").get? i = some 0 →
      bestCpiIdx (derive t) ≠ some i) ∧
    keys (derive t) = keys t ∧
    getColQ (derive t) "Spends" = getColQ t "Spends" := by
  have hcpi := derive_cpi_col t hw
  have hzero : ∀ i, (getColQ (derive t) "total_installs").get? i = some 0 →
      (getColO (derive t) "cpi").get? i = some none := by
    intro i hi
    obtain ⟨sp, hsp⟩ := get?_some_of_length (getColQ (derive t) "total_installs")
      (getColQ (derive t) "Spends") (by rw [length_getColQ, length_getColQ]) hi
    rw [hcpi, get?_zipWith _ _ _ i sp 0 hsp hi, if_neg (lt_irrefl 0)]
  refine ⟨hcpi, hzero, ?_, keys_derive t, derive_spends_col t hw⟩
  intro i hi hbest
  obtain ⟨x, hx, hfst⟩ := Option.map_eq_some'.mp hbest
  obtain ⟨hget, _, _⟩ := idxmin?_spec _ x.1 x.2 (by rw [hx, Prod.mk.eta])
  rw [hfst] at hget
  rw [hzero i hi] at hget
  cases hget

theorem c4_cpi_undefined_policy_witness :
    getColO (derive (⟨["Spends"], [(1, [some 3])]⟩ : Table)) "cpi" =
      List.zipWith (fun s i => if 0 < i then some (s / i) else none)
        (getColQ (derive (⟨["Spends"], [(1, [some 3])]⟩ : Table)) "Spends")
        (getColQ (derive (⟨["Spends"], [(1, [some 3])]⟩ : Table)) "total_installs") ∧
    keys (derive (⟨["Spends"], [(1, [some 3])]⟩ : Table)) = [1] := by
  have h := c4_cpi_undefined_policy ⟨["Spends"], [(1, [some 3])]⟩
    (by intro p hp; rcases List.mem_singleton.mp hp with rfl; rfl)
  exact ⟨h.1, h.2.2.2.1⟩

/-- **C5 (code evaluated at the failing input).** The in-app format help
(lines 305-309) documents the lower-case column name `installs` as accepted
for the iOS upload; after the `ios_` namespacing such a column is named
exactly `ios_installs`, and line 102's placeholder assignment
(`sum_cols_by_regex(combined_df, 'ios') * 0`) overwrites it with zeros before
line 104 sums the matching columns.  On the combined table with that single
source column holding 5, the derived `ios_installs` is 0, while the
structural sum of the matching columns prescribed by the claim is 5. -/
theorem c5_placeholder_destroys_ios_installs :
    getColQ (derive (⟨["ios_installs"], [(0, [some 5])]⟩ : Table)) "ios_installs" = [0] ∧
    structColSum (⟨["ios_installs"], [(0, [some 5])]⟩ : Table) "ios" "install" = [5] := by
  have hw : WF (⟨["ios_installs"], [(0, [some 5])]⟩ : Table) := by
    intro p hp
    rcases List.mem_singleton.mp hp with rfl
    rfl
  have hm : matchesB "ios" "install" "ios_installs" = true := by decide
  have hrow : structRowSum ["ios_installs"] [some 5] "ios" "install" = 5 := by
    rw [structRowSum_cons, hm, structRowSum_nil]
    simp
  have hs : structColSum (⟨["ios_installs"], [(0, [some 5])]⟩ : Table) "ios" "install" =
      [5] := by
    show [structRowSum ["ios_installs"] [some 5] "ios" "install"] = [5]
    rw [hrow]
  refine ⟨?_, hs⟩
  rw [derive_ios_installs_col_mem _ (by decide) hw, hs]
  have hg : getColQ (⟨["ios_installs"], [(0, [some 5])]⟩ : Table) "ios_installs" = [5] := by
    show [colVal ["ios_installs"] [some 5] "ios_installs"] = [5]
    rw [colVal_cons, if_pos rfl]
    rfl
  rw [hg]
  show [(5 : ℚ) - 5] = [0]
  norm_num

theorem summaryOf_total_spend (T : Table) :
    (summaryOf T).total_spend = (getColQ T "Spends").sum := rfl

theorem summaryOf_total_installs (T : Table) :
    (summaryOf T).total_installs = (getColQ T "total_installs").sum := rfl

theorem summaryOf_total_kyc (T : Table) :
    (summaryOf T).total_kyc = (getColQ T "total_kyc").sum := rfl

theorem summaryOf_total_otp (T : Table) :
    (summaryOf T).total_otp = (getColQ T "total_otp").sum := rfl

theorem summaryOf_avg_cpi (T : Table) :
    (summaryOf T).avg_cpi = (if 0 < (getColQ T "total_installs").sum then
      (getColQ T "Spends").sum / (getColQ T "total_installs").sum else 0) := rfl

theorem summaryOf_kyc_pct (T : Table) :
    (summaryOf T).install_to_kyc_pct = (if 0 < (getColQ T "total_installs").sum then
      (getColQ T "total_kyc").sum / (getColQ T "total_installs").sum * 100 else 0) := rfl

theorem summaryOf_otp_pct (T : Table) :
    (summaryOf T).install_to_otp_pct = (if 0 < (getColQ T "total_installs").sum then
      (getColQ T "total_otp").sum / (getColQ T "total_installs").sum * 100 else 0) := rfl

/-- **C6.** The summary record of lines 143-162 is computed from whole-series
sums: `total_spend` is the sum of the spend column, the three totals are the
sums of the structural per-platform sums over all combined rows,
`avg_cost_per_install` is `total_spend / total_installs` when
`total_installs > 0` and `0` otherwise, and the overall Install→KYC and
Install→OTP percentages come from those summed totals.  The final conjunct
separates this from the mean of the per-day percentages: on a concrete
two-day table the totals-based percentage is 25 while the mean of the daily
percentages is 50.  Stated for tables without a pre-existing `ios_installs`
column (see C5 for that pathology). -/
theorem c6_summary_from_totals (t : Table) (hfI : "ios_installs" ∉ t.cols) (hw : WF t) :
    (summaryOf (derive t)).total_spend = (getColQ t "Spends").sum ∧
    (summaryOf (derive t)).total_installs =
      (structColSum t "ios" "install").sum + (structColSum t "android" "install").sum ∧
    (summaryOf (derive t)).total_kyc =
      (structColSum t "ios" "kyc").sum + (structColSum t "android" "kyc").sum ∧
    (summaryOf (derive t)).total_otp =
      (structColSum t "ios" "otp").sum + (structColSum t "android" "otp").sum ∧
    (summaryOf (derive t)).avg_cpi =
      (if 0 < (summaryOf (derive t)).total_installs then
        (getColQ t "Spends").sum / (summaryOf (derive t)).total_installs else 0) ∧
    (summaryOf (derive t)).install_to_kyc_pct =
      (if 0 < (summaryOf (derive t)).total_installs then
        (summaryOf (derive t)).total_kyc / (summaryOf (derive t)).total_installs * 100
      else 0) ∧
    (summaryOf (derive t)).install_to_otp_pct =
      (if 0 < (summaryOf (derive t)).total_installs then
        (summaryOf (derive t)).total_otp / (summaryOf (derive t)).total_installs * 100
      else 0) ∧
    (summaryOf (derive (⟨["ios_Installs", "ios_KYC"],
        [(1, [some 1, some 1]), (2, [some 3, some 0])]⟩ : Table))).install_to_kyc_pct ≠
      meanOf (getColQ (derive (⟨["ios_Installs", "ios_KYC"],
        [(1, [some 1, some 1]), (2, [some 3, some 0])]⟩ : Table)) "install_to_kyc") := by
  refine ⟨?_, ?_, ?_, ?_, ?_, ?_, ?_, ?_⟩
  · rw [summaryOf_total_spend, derive_spends_col t hw]
  · rw [summaryOf_total_installs, derive_total_installs_col t hw,
      derive_ios_installs_col t hfI hw, derive_android_installs_col t hw,
      sum_zipWith_add _ _ (by rw [length_structColSum, length_structColSum])]
  · rw [summaryOf_total_kyc, derive_total_kyc_col t hw, derive_ios_kyc_col t hw,
      derive_android_kyc_col t hw,
      sum_zipWith_add _ _ (by rw [length_structColSum, length_structColSum])]
  · rw [summaryOf_total_otp, derive_total_otp_col t hw, derive_ios_otp_col t hw,
      derive_android_otp_col t hw,
      sum_zipWith_add _ _ (by rw [length_structColSum, length_structColSum])]
  · rw [summaryOf_avg_cpi, summaryOf_total_installs, derive_spends_col t hw]
  · rw [summaryOf_kyc_pct, summaryOf_total_installs, summaryOf_total_kyc]
  · rw [summaryOf_otp_pct, summaryOf_total_installs, summaryOf_total_otp]
  · have hwc : WF (⟨["ios_Installs", "ios_KYC"],
        [(1, [some 1, some 1]), (2, [some 3, some 0])]⟩ : Table) := by
      intro p hp
      rcases List.mem_cons.mp hp with rfl | hp
      · rfl
      · rcases List.mem_singleton.mp hp with rfl
        rfl
    have mII : matchesB "ios" "install" "ios_Installs" = true := by decide
    have mIK : matchesB "ios" "install" "ios_KYC" = false := by decide
    have mKI : matchesB "ios" "kyc" "ios_Installs" = false := by decide
    have mKK : matchesB "ios" "kyc" "ios_KYC" = true := by decide
    have mAI : matchesB "android" "install" "ios_Installs" = false := by decide
    have mAI2 : matchesB "android" "install" "ios_KYC" = false := by decide
    have mAK : matchesB "android" "kyc" "ios_Installs" = false := by decide
    have mAK2 : matchesB "android" "kyc" "ios_KYC" = false := by decide
    have hrowI : ∀ a b : Option ℚ,
        structRowSum ["ios_Installs", "ios_KYC"] [a, b] "ios" "install" = a.getD 0 := by
      intro a b
      rw [structRowSum_cons, structRowSum_cons, mII, mIK, structRowSum_nil]
      simp
    have hrowK : ∀ a b : Option ℚ,
        structRowSum ["ios_Installs", "ios_KYC"] [a, b] "ios" "kyc" = b.getD 0 := by
      intro a b
      rw [structRowSum_cons, structRowSum_cons, mKI, mKK, structRowSum_nil]
      simp
    have hrowAI : ∀ a b : Option ℚ,
        structRowSum ["ios_Installs", "ios_KYC"] [a, b] "android" "install" = 0 := by
      intro a b
      rw [structRowSum_cons, structRowSum_cons, mAI, mAI2, structRowSum_nil]
      simp
    have hrowAK : ∀ a b : Option ℚ,
        structRowSum ["ios_Installs", "ios_KYC"] [a, b] "android" "kyc" = 0 := by
      intro a b
      rw [structRowSum_cons, structRowSum_cons, mAK, mAK2, structRowSum_nil]
      simp
    have hti : getColQ (derive (⟨["ios_Installs", "ios_KYC"],
        [(1, [some 1, some 1]), (2, [some 3, some 0])]⟩ : Table)) "total_installs" =
        [1, 3] := by
      rw [derive_total_installs_col _ hwc, derive_ios_installs_col _ (by decide) hwc,
        derive_android_installs_col _ hwc]
      have hsI : structColSum (⟨["ios_Installs", "ios_KYC"],
          [(1, [some 1, some 1]), (2, [some 3, some 0])]⟩ : Table) "ios" "install" =
          [1, 3] := by
        show [structRowSum ["ios_Installs", "ios_KYC"] [some 1, some 1] "ios" "install",
          structRowSum ["ios_Installs", "ios_KYC"] [some 3, some 0] "ios" "install"] = _
        rw [hrowI, hrowI]
        rfl
      have hsA : structColSum (⟨["ios_Installs", "ios_KYC"],
          [(1, [some 1, some 1]), (2, [some 3, some 0])]⟩ : Table) "android" "install" =
          [0, 0] := by
        show [structRowSum ["ios_Installs", "ios_KYC"] [some 1, some 1] "android" "install",
          structRowSum ["ios_Installs", "ios_KYC"] [some 3, some 0] "android" "install"] = _
        rw [hrowAI, hrowAI]
      rw [hsI, hsA]
      show [(1 : ℚ) + 0, 3 + 0] = [1, 3]
      norm_num
    have htk : getColQ (derive (⟨["ios_Installs", "ios_KYC"],
        [(1, [some 1, some 1]), (2, [some 3, some 0])]⟩ : Table)) "total_kyc" =
        [1, 0] := by
      rw [derive_total_kyc_col _ hwc, derive_ios_kyc_col _ hwc, derive_android_kyc_col _ hwc]
      have hsK : structColSum (⟨["ios_Installs", "ios_KYC"],
          [(1, [some 1, some 1]), (2, [some 3, some 0])]⟩ : Table) "ios" "kyc" =
          [1, 0] := by
        show [structRowSum ["ios_Installs", "ios_KYC"] [some 1, some 1] "ios" "kyc",
          structRowSum ["ios_Installs", "ios_KYC"] [some 3, some 0] "ios" "kyc"] = _
        rw [hrowK, hrowK]
        rfl
      have hsAK : structColSum (⟨["ios_Installs", "ios_KYC"],
          [(1, [some 1, some 1]), (2, [some 3, some 0])]⟩ : Table) "android" "kyc" =
          [0, 0] := by
        show [structRowSum ["ios_Installs", "ios_KYC"] [some 1, some 1] "android" "kyc",
          structRowSum ["ios_Installs", "ios_KYC"] [some 3, some 0] "android" "kyc"] = _
        rw [hrowAK, hrowAK]
      rw [hsK, hsAK]
      show [(1 : ℚ) + 0, 0 + 0] = [1, 0]
      norm_num
    have hratio : getColQ (derive (⟨["ios_Installs", "ios_KYC"],
        [(1, [some 1, some 1]), (2, [some 3, some 0])]⟩ : Table)) "install_to_kyc" =
        [100, 0] := by
      rw [derive_install_to_kyc_col _ hwc, htk, hti]
      show [if (0 : ℚ) < 1 then (1 : ℚ) / 1 * 100 else 0,
        if (0 : ℚ) < 3 then (0 : ℚ) / 3 * 100 else 0] = [100, 0]
      rw [if_pos (by norm_num), if_pos (by norm_num)]
      norm_num
    rw [summaryOf_kyc_pct, hti, htk, hratio]
    have h1 : ([(1 : ℚ), 3]).sum = 4 := by
      simp [List.sum_cons]
      norm_num
    have h2 : ([(1 : ℚ), 0]).sum = 1 := by
      simp [List.sum_cons]
    rw [h1, h2, if_pos (by norm_num)]
    unfold meanOf
    have h3 : ([(100 : ℚ), 0]).sum = 100 := by
      simp [List.sum_cons]
    rw [h3]
    norm_num

theorem c6_summary_from_totals_witness :
    (summaryOf (derive (⟨["Spends"], [(1, [some 3])]⟩ : Table))).total_spend =
      (getColQ (⟨["Spends"], [(1, [some 3])]⟩ : Table) "Spends").sum :=
  (c6_summary_from_totals ⟨["Spends"], [(1, [some 3])]⟩ (by decide)
    (by intro p hp; rcases List.mem_singleton.mp hp with rfl; rfl)).1

/-- **C7.** Best-day selection (lines 261-283) is stable.  The best-CPI index
is `none` (rendered `N/A`) exactly when no row has a defined CPI; when it is
`some i`, row `i` carries a defined CPI that is a minimum of all defined
CPIs, and any other row attaining the same value lies at the same or a later
date (with keys sorted ascending, the first occurrence wins).  The
best-conversion index is `none` exactly on the empty table; when `some i`,
row `i` attains the maximum `install_to_kyc` and ties resolve to the
earliest date. -/
theorem c7_best_day_selection (t : Table) (hs : List.Sorted (· ≤ ·) (keys t)) :
    (bestCpiIdx t = none ↔ ∀ c ∈ getColO t "cpi", c = none) ∧
    (∀ i, bestCpiIdx t = some i → ∃ w, (getColO t "cpi").get? i = some (some w) ∧
      (∀ j v, (getColO t "cpi").get? j = some (some v) → w ≤ v) ∧
      (∀ j v, (getColO t "cpi").get? j = some (some v) → v = w →
        nthKey t i ≤ nthKey t j)) ∧
    (bestConvIdx t = none ↔ t.rows = []) ∧
    (∀ i, bestConvIdx t = some i → ∃ w, (getColQ t "install_to_kyc").get? i = some w ∧
      (∀ j v, (getColQ t "install_to_kyc").get? j = some v → v ≤ w) ∧
      (∀ j v, (getColQ t "install_to_kyc").get? j = some v → v = w →
        nthKey t i ≤ nthKey t j)) := by
  have hkl : (keys t).length = t.rows.length := List.length_map _ _
  refine ⟨?_, ?_, ?_, ?_⟩
  · show (idxmin? (getColO t "cpi")).map Prod.fst = none ↔ _
    rw [Option.map_eq_none']
    exact idxmin?_eq_none_iff _
  · intro i hbest
    obtain ⟨x, hx, hfst⟩ := Option.map_eq_some'.mp hbest
    subst hfst
    obtain ⟨hget, hmin, hfirst⟩ := idxmin?_spec _ x.1 x.2 (by rw [hx, Prod.mk.eta])
    refine ⟨x.2, hget, fun j v hv => hmin j v hv, ?_⟩
    intro j v hv hveq
    by_cases hji : j < x.1
    · exfalso
      have hlt := hfirst j v hji hv
      rw [hveq] at hlt
      exact lt_irrefl _ hlt
    · have hjlen : j < (keys t).length := by
        have hcol : j < (getColO t "cpi").length := by
          cases List.get?_eq_some.mp hv with
          | intro hlt _ => exact hlt
        rw [length_getColO] at hcol
        rw [hkl]
        exact hcol
      exact nthKey_mono t hs (le_of_not_lt hji) hjlen
  · show (idxmax? (getColQ t "install_to_kyc")).map Prod.fst = none ↔ _
    rw [Option.map_eq_none', idxmax?_eq_none_iff]
    unfold getColQ
    exact List.map_eq_nil_iff
  · intro i hbest
    obtain ⟨x, hx, hfst⟩ := Option.map_eq_some'.mp hbest
    subst hfst
    obtain ⟨hget, hmax, hfirst⟩ := idxmax?_spec _ x.1 x.2 (by rw [hx, Prod.mk.eta])
    refine ⟨x.2, hget, fun j v hv => hmax j v hv, ?_⟩
    intro j v hv hveq
    by_cases hji : j < x.1
    · exfalso
      have hlt := hfirst j v hji hv
      rw [hveq] at hlt
      exact lt_irrefl _ hlt
    · have hjlen : j < (keys t).length := by
        have hcol : j < (getColQ t "install_to_kyc").length := by
          cases List.get?_eq_some.mp hv with
          | intro hlt _ => exact hlt
        rw [length_getColQ] at hcol
        rw [hkl]
        exact hcol
      exact nthKey_mono t hs (le_of_not_lt hji) hjlen

theorem c7_best_day_selection_witness :
    (bestCpiIdx (⟨["cpi"], [(1, [none]), (2, [none])]⟩ : Table) = none ↔
      ∀ c ∈ getColO (⟨["cpi"], [(1, [none]), (2, [none])]⟩ : Table) "cpi", c = none) ∧
    (bestConvIdx (⟨["cpi"], [(1, [none]), (2, [none])]⟩ : Table) = none ↔
      (⟨["cpi"], [(1, [none]), (2, [none])]⟩ : Table).rows = []) := by
  have h := c7_best_day_selection ⟨["cpi"], [(1, [none]), (2, [none])]⟩ (by decide)
  exact ⟨h.1, h.2.2.1⟩

/-- **C8.** Date handling per input table (lines 34-67): the date column is
the first column whose lower-cased name contains `"date"`; rows whose date
value fails to parse are coerced to NaT and dropped (lenient policy) while
the surviving rows are processed in order; and when any of the three inputs
has no detectable date column, the pipeline stops with the specific line-56
message and produces no partial result (`st.error` + `st.stop`). -/
theorem c8_date_column_policy :
    (∀ (cols : List String) (i : ℕ), findDateIdx cols = some i →
      ∃ hi : i < cols.length, hasSub "date" (lowStr (cols.get ⟨i, hi⟩)) = true ∧
        ∀ j (hj : j < i),
          hasSub "date" (lowStr (cols.get ⟨j, Nat.lt_trans hj hi⟩)) = false) ∧
    (∀ (t : RawTable) (i : ℕ),
      keys (toKeyed t i) = t.rows.filterMap (fun r => parseDate (rcellAt r i)) ∧
      (toKeyed t i).rows.length =
        t.rows.countP (fun r => (parseDate (rcellAt r i)).isSome)) ∧
    (∀ (ios android spend : RawTable) (i j k : ℕ), findDateIdx ios.cols = some i →
      findDateIdx android.cols = some j → findDateIdx spend.cols = some k →
      pipeline ios android spend =
        .ok (derive (combine3 (addTag "ios_" (toKeyed ios i))
          (addTag "android_" (toKeyed android j)) (spendAdopt (toKeyed spend k))))) ∧
    (∀ ios android spend : RawTable,
      (findDateIdx ios.cols = none ∨ findDateIdx android.cols = none ∨
        findDateIdx spend.cols = none) →
      pipeline ios android spend =
        .error "Couldn't find a Date column in one of the files. Make sure each CSV has a Date column.") :=
  ⟨findDateIdx_spec,
    fun t i => ⟨keys_toKeyed t i, length_filterMap_countP t i⟩,
    fun ios android spend _ _ _ h1 h2 h3 => pipeline_ok_of_dates ios android spend h1 h2 h3,
    pipeline_error_of_no_date⟩

theorem c8_date_column_policy_witness :
    pipeline (⟨["Day"], [[.num 1]]⟩ : RawTable) (⟨["Date"], []⟩ : RawTable)
        (⟨["Date"], []⟩ : RawTable) =
      .error "Couldn't find a Date column in one of the files. Make sure each CSV has a Date column." ∧
    keys (toKeyed (⟨["Date", "Installs"],
        [[.date 3, .num 9], [.bad, .num 4]]⟩ : RawTable) 0) = [3] := by
  have h := c8_date_column_policy
  refine ⟨h.2.2.2 _ _ _ (Or.inl (by decide)), ?_⟩
  rw [(h.2.1 ⟨["Date", "Installs"], [[.date 3, .num 9], [.bad, .num 4]]⟩ 0).1]
  decide

/-- **C9.** Spend column discovery (lines 74-80): the first column of the
spend table whose lower-cased name contains one of `spend`, `spends`,
`amount`, `cost`, `media` is adopted (renamed to `Spends`, its values
untouched), and when no column matches, an all-zero `Spends` column is
appended instead of failing — the rows and their dates are preserved. -/
theorem c9_spend_column_discovery (t : Table) (hw : WF t) :
    (∀ i, t.cols.findIdx? spendKeyB = some i →
      (∃ hi : i < t.cols.length, spendKeyB (t.cols.get ⟨i, hi⟩) = true) ∧
      (spendAdopt t).cols = t.cols.set i "Spends" ∧ (spendAdopt t).rows = t.rows ∧
      getColQ (spendAdopt t) "Spends" =
        t.rows.map (fun p => ((p.2.get? i).getD none).getD 0)) ∧
    (t.cols.findIdx? spendKeyB = none →
      (spendAdopt t).cols = t.cols ++ ["Spends"] ∧ keys (spendAdopt t) = keys t ∧
      getColQ (spendAdopt t) "Spends" = t.rows.map (fun _ => 0)) := by
  constructor
  · intro i hi
    obtain ⟨hlen, hkey, _⟩ := List.findIdx?_eq_some_iff_getElem.mp hi
    exact ⟨⟨hlen, by simpa [List.get_eq_getElem] using hkey⟩, spendAdopt_found t i hw hi⟩
  · intro hnone
    exact spendAdopt_missing t hw hnone

theorem c9_spend_column_discovery_witness :
    (spendAdopt (⟨["Date0", "Media Cost"], [(1, [some 2, some 9])]⟩ : Table)).cols =
      ["Date0", "Spends"] ∧
    (spendAdopt (⟨["Other"], [(1, [some 2])]⟩ : Table)).cols = ["Other", "Spends"] := by
  have h1 := (c9_spend_column_discovery ⟨["Date0", "Media Cost"], [(1, [some 2, some 9])]⟩
    (by intro p hp; rcases List.mem_singleton.mp hp with rfl; rfl)).1 1 (by decide)
  have h2 := (c9_spend_column_discovery ⟨["Other"], [(1, [some 2])]⟩
    (by intro p hp; rcases List.mem_singleton.mp hp with rfl; rfl)).2 (by decide)
  exact ⟨h1.2.1, h2.1⟩

/-- **C10.** A spend-table cell that does not parse as a number is silently
coerced to zero rather than raising an error or aborting: running the
pipeline on a spend table in which every unparseable cell is replaced by the
literal number 0 produces exactly the same output (same success/failure, same
combined table, hence the cell contributes 0 to its day's spend, to
`total_spend`, and to every derived CPI value).  In the embedding the
coercion models line 121's `pd.to_numeric(..., errors='coerce')` composed
with the `fillna(0)` of lines 92 and 121. -/
theorem c10_bad_spend_coerced_to_zero (ios android spend : RawTable) :
    pipeline ios android (badToZero spend) = pipeline ios android spend :=
  pipeline_badToZero ios android spend

end Funnel
